import Mathlib

/-!
Verification of the traffic-eye violation pipeline core.

Shallow embedding of the Python sources in `src/`:
Python floats are modelled as rationals, Python ints as `Int`/`Nat`
(the counters involved are provably non-negative), dictionaries as
functions with pointwise update, and `time.monotonic()` as an explicit
rational time parameter threaded through the stateful calls.
-/

namespace TrafficEye

/-! ## Temporal consistency checker (src/violation/temporal.py) -/

/-- Key of the counter dictionary: (violation_type, track_id). -/
abbrev TKey := String × Int

/-- State of TemporalConsistencyChecker: the defaultdict(int) of counters. -/
def TemporalState := TKey → Nat

/-- Fresh checker: every counter reads 0 (defaultdict semantics). -/
def initTemporal : TemporalState := fun _ => 0

/-- TemporalConsistencyChecker.update: increment the counter on
condition_met, reset to 0 otherwise, then report counter >= min_frames. -/
def temporalUpdate (s : TemporalState) (vt : String) (tid : Int)
    (conditionMet : Bool) (minFrames : Nat) : TemporalState × Bool :=
  let key : TKey := (vt, tid)
  let s' : TemporalState :=
    fun k => if k = key then (if conditionMet then s key + 1 else 0) else s k
  (s', decide (minFrames ≤ s' key))

/-- TemporalConsistencyChecker.get_count. -/
def temporalGetCount (s : TemporalState) (vt : String) (tid : Int) : Nat :=
  s (vt, tid)

/-- A sequence of update calls with a fixed (violation_type, track_id) key,
returning the final state and the list of returned booleans. -/
def temporalRun (s : TemporalState) (vt : String) (tid : Int)
    (minFrames : Nat) : List Bool → TemporalState × List Bool
  | [] => (s, [])
  | b :: bs =>
    let step := temporalUpdate s vt tid b minFrames
    let rest := temporalRun step.1 vt tid minFrames bs
    (rest.1, step.2 :: rest.2)

theorem temporalUpdate_true_key (s : TemporalState) (vt : String) (tid : Int)
    (mf : Nat) : (temporalUpdate s vt tid true mf).1 (vt, tid) = s (vt, tid) + 1 := by
  simp [temporalUpdate]

theorem temporalRun_true_outputs (vt : String) (tid : Int) (mf : Nat) :
    ∀ (k : Nat) (s : TemporalState),
      (temporalRun s vt tid mf (List.replicate k true)).2
        = (List.range k).map (fun i => decide (mf ≤ s (vt, tid) + i + 1)) := by
  intro k
  induction k with
  | zero => intro s; simp [temporalRun]
  | succ n ih =>
    intro s
    rw [List.replicate_succ, List.range_succ_eq_map]
    simp only [temporalRun, List.map_cons, List.map_map]
    congr 1
    · simp [temporalUpdate]
    · rw [ih]
      apply List.map_congr_left
      intro i _
      simp only [Function.comp_apply, temporalUpdate_true_key, decide_eq_decide]
      omega

/-! ## Confidence aggregation and routing (src/violation/confidence.py) -/

/-- The aggregation weights (ConfidenceAggregator weight dict). -/
structure Weights where
  detection : ℚ
  classification : ℚ
  temporal : ℚ
  ocr : ℚ

/-- ConfidenceAggregator.DEFAULT_WEIGHTS. -/
def defaultWeights : Weights :=
  { detection := 3/10, classification := 3/10, temporal := 2/10, ocr := 2/10 }

/-- Clamp to the unit interval. -/
def clamp01 (x : ℚ) : ℚ := max 0 (min 1 x)

/-- ConfidenceAggregator.compute: weighted sum with the temporal ratio
clamped first; when ocr_conf is None the three remaining weights are
rescaled by the inverse of their sum (when positive); the result is
clamped to [0, 1]. -/
def compute (w : Weights) (detectionConf classificationConf temporalRatio : ℚ)
    (ocrConf : Option ℚ) : ℚ :=
  let temporalClamped := min 1 (max 0 temporalRatio)
  match ocrConf with
  | some o =>
    max 0 (min 1 (detectionConf * w.detection
      + classificationConf * w.classification
      + temporalClamped * w.temporal + o * w.ocr))
  | none =>
    let totalActive := w.detection + w.classification + w.temporal
    let scale := if 0 < totalActive then 1 / totalActive else 1
    max 0 (min 1 (detectionConf * (w.detection * scale)
      + classificationConf * (w.classification * scale)
      + temporalClamped * (w.temporal * scale)))

/-- ConfidenceAggregator.meets_local_threshold. -/
def meetsLocalThreshold (confidence threshold : ℚ) : Bool :=
  threshold ≤ confidence

/-- ConfidenceAggregator.needs_cloud_verification. -/
def needsCloudVerification (confidence low high : ℚ) : Bool :=
  low ≤ confidence && confidence < high

/-- ConfidenceAggregator.should_discard. -/
def shouldDiscard (confidence threshold : ℚ) : Bool :=
  confidence < threshold

theorem clamp_comm (t : ℚ) : min 1 (max 0 t) = max 0 (min 1 t) := by
  simp only [min_def, max_def]
  split_ifs <;> first | rfl | linarith

/-! ## Persistent work queue (src/utils/database.py)

Each Database method wraps its SQL in one `transaction()` block, so one
`applyOp` step below is exactly one transaction.  ISO timestamps are
totally ordered strings; they are modelled as rationals. -/

/-- A cloud_queue row. -/
structure CloudJob where
  id : Nat
  violation_id : String
  status : String
  attempts : Nat
  last_attempt_at : Option ℚ
  response_json : Option String
  error_message : Option String
  created_at : ℚ
  updated_at : ℚ
deriving DecidableEq, Repr

/-- An email_queue row. -/
structure EmailJob where
  id : Nat
  violation_id : String
  status : String
  attempts : Nat
  last_attempt_at : Option ℚ
  error_message : Option String
  created_at : ℚ
  updated_at : ℚ
deriving DecidableEq, Repr

/-- The queue tables plus the AUTOINCREMENT counters. -/
structure QueueDB where
  cloud : List CloudJob
  email : List EmailJob
  nextCloudId : Nat
  nextEmailId : Nat
deriving DecidableEq, Repr

/-- Database.enqueue_cloud: INSERT a pending row, attempts defaulting to 0. -/
def enqueueCloud (db : QueueDB) (vid : String) (now : ℚ) : QueueDB × Nat :=
  let job : CloudJob :=
    { id := db.nextCloudId, violation_id := vid, status := "pending",
      attempts := 0, last_attempt_at := none, response_json := none,
      error_message := none, created_at := now, updated_at := now }
  ({ db with cloud := db.cloud ++ [job], nextCloudId := db.nextCloudId + 1 },
    db.nextCloudId)

/-- Database.get_pending_cloud: SELECT rows with status 'pending' ordered by
created_at ascending, limited; a pure read that does not touch the table. -/
def getPendingCloud (db : QueueDB) (limit : Nat) : List CloudJob :=
  (((db.cloud.filter (fun j => j.status = "pending")).insertionSort
    (fun a b => a.created_at ≤ b.created_at)).take limit)

/-- The simultaneous change one update_cloud_status UPDATE applies to the
targeted row: status, attempts + 1, last_attempt_at, response_json,
error_message and updated_at together. -/
def cloudRowUpdate (status : String) (responseJson errorMessage : Option String)
    (now : ℚ) (j : CloudJob) : CloudJob :=
  { j with
    status := status,
    attempts := j.attempts + 1,
    last_attempt_at := some now,
    response_json := responseJson,
    error_message := errorMessage,
    updated_at := now }

/-- Database.update_cloud_status: one UPDATE, i.e. one transaction. -/
def updateCloudStatus (db : QueueDB) (qid : Nat) (status : String)
    (responseJson errorMessage : Option String) (now : ℚ) : QueueDB :=
  { db with cloud := db.cloud.map (fun j =>
      if j.id = qid then cloudRowUpdate status responseJson errorMessage now j
      else j) }

/-- Database.enqueue_email. -/
def enqueueEmail (db : QueueDB) (vid : String) (now : ℚ) : QueueDB × Nat :=
  let job : EmailJob :=
    { id := db.nextEmailId, violation_id := vid, status := "pending",
      attempts := 0, last_attempt_at := none, error_message := none,
      created_at := now, updated_at := now }
  ({ db with email := db.email ++ [job], nextEmailId := db.nextEmailId + 1 },
    db.nextEmailId)

/-- Database.get_pending_emails: a pure read, like get_pending_cloud. -/
def getPendingEmails (db : QueueDB) (limit : Nat) : List EmailJob :=
  (((db.email.filter (fun j => j.status = "pending")).insertionSort
    (fun a b => a.created_at ≤ b.created_at)).take limit)

/-- The simultaneous change one update_email_status UPDATE applies to the
targeted row. -/
def emailRowUpdate (status : String) (errorMessage : Option String)
    (now : ℚ) (j : EmailJob) : EmailJob :=
  { j with
    status := status,
    attempts := j.attempts + 1,
    last_attempt_at := some now,
    error_message := errorMessage,
    updated_at := now }

/-- Database.update_email_status: one UPDATE, i.e. one transaction. -/
def updateEmailStatus (db : QueueDB) (qid : Nat) (status : String)
    (errorMessage : Option String) (now : ℚ) : QueueDB :=
  { db with email := db.email.map (fun j =>
      if j.id = qid then emailRowUpdate status errorMessage now j
      else j) }

/-- The queue-facing operations of Database; each is a single transaction. -/
inductive QueueOp where
  | enqCloud (vid : String) (now : ℚ)
  | pendingCloud (limit : Nat)
  | updCloud (qid : Nat) (status : String) (rj em : Option String) (now : ℚ)
  | enqEmail (vid : String) (now : ℚ)
  | pendingEmail (limit : Nat)
  | updEmail (qid : Nat) (status : String) (em : Option String) (now : ℚ)

/-- Effect of one operation (one transaction) on the queue tables. -/
def applyOp (db : QueueDB) : QueueOp → QueueDB
  | .enqCloud vid now => (enqueueCloud db vid now).1
  | .pendingCloud _ => db
  | .updCloud qid s rj em now => updateCloudStatus db qid s rj em now
  | .enqEmail vid now => (enqueueEmail db vid now).1
  | .pendingEmail _ => db
  | .updEmail qid s em now => updateEmailStatus db qid s em now

/-- Run a sequence of operations. -/
def runOps (db : QueueDB) (ops : List QueueOp) : QueueDB :=
  ops.foldl applyOp db

/-- The first cloud_queue row with the given id. -/
def cloudFind (db : QueueDB) (qid : Nat) : Option CloudJob :=
  db.cloud.find? (fun j => j.id = qid)

/-- The first email_queue row with the given id. -/
def emailFind (db : QueueDB) (qid : Nat) : Option EmailJob :=
  db.email.find? (fun j => j.id = qid)

/-- attempts of a cloud job, when the row exists. -/
def cloudAttempts (db : QueueDB) (qid : Nat) : Option Nat :=
  (cloudFind db qid).map CloudJob.attempts

/-- attempts of an email job, when the row exists. -/
def emailAttempts (db : QueueDB) (qid : Nat) : Option Nat :=
  (emailFind db qid).map EmailJob.attempts

theorem find?_map_keypres {α : Type} (f : α → α) (p : α → Bool) (l : List α)
    (hpres : ∀ x, p (f x) = p x) (j : α) (h : l.find? p = some j) :
    (l.map f).find? p = some (f j) := by
  induction l with
  | nil => simp at h
  | cons a l ih =>
    by_cases ha : p a
    · rw [List.find?_cons_of_pos _ ha] at h
      cases h
      simp only [List.map_cons]
      rw [List.find?_cons_of_pos _ (by rw [hpres]; exact ha)]
    · rw [List.find?_cons_of_neg _ (by simpa using ha)] at h
      simp only [List.map_cons]
      rw [List.find?_cons_of_neg _ (by rw [hpres]; simpa using ha)]
      exact ih h

theorem find?_append_of_found {α : Type} (p : α → Bool) (l l' : List α) (j : α)
    (h : l.find? p = some j) : (l ++ l').find? p = some j := by
  induction l with
  | nil => simp at h
  | cons a l ih =>
    by_cases ha : p a
    · rw [List.find?_cons_of_pos _ ha] at h
      cases h
      rw [List.cons_append, List.find?_cons_of_pos _ ha]
    · rw [List.find?_cons_of_neg _ (by simpa using ha)] at h
      rw [List.cons_append, List.find?_cons_of_neg _ (by simpa using ha)]
      exact ih h

theorem cloudRowUpdate_id (s : String) (rj em : Option String) (now : ℚ)
    (j : CloudJob) : (cloudRowUpdate s rj em now j).id = j.id := rfl

theorem emailRowUpdate_id (s : String) (em : Option String) (now : ℚ)
    (j : EmailJob) : (emailRowUpdate s em now j).id = j.id := rfl

theorem cloudFind_update (db : QueueDB) (qid qid' : Nat) (s : String)
    (rj em : Option String) (now : ℚ) (j : CloudJob)
    (hj : cloudFind db qid = some j) :
    cloudFind (updateCloudStatus db qid' s rj em now) qid
      = some (if j.id = qid' then cloudRowUpdate s rj em now j else j) := by
  simp only [cloudFind, updateCloudStatus] at hj ⊢
  apply find?_map_keypres _ _ _ _ _ hj
  intro x
  by_cases hx : x.id = qid' <;> simp [hx, cloudRowUpdate_id]

theorem emailFind_update (db : QueueDB) (qid qid' : Nat) (s : String)
    (em : Option String) (now : ℚ) (j : EmailJob)
    (hj : emailFind db qid = some j) :
    emailFind (updateEmailStatus db qid' s em now) qid
      = some (if j.id = qid' then emailRowUpdate s em now j else j) := by
  simp only [emailFind, updateEmailStatus] at hj ⊢
  apply find?_map_keypres _ _ _ _ _ hj
  intro x
  by_cases hx : x.id = qid' <;> simp [hx, emailRowUpdate_id]

theorem cloudAttempts_congr (db db' : QueueDB) (qid : Nat)
    (h : db.cloud = db'.cloud) : cloudAttempts db qid = cloudAttempts db' qid := by
  simp [cloudAttempts, cloudFind, h]

theorem emailAttempts_congr (db db' : QueueDB) (qid : Nat)
    (h : db.email = db'.email) : emailAttempts db qid = emailAttempts db' qid := by
  simp [emailAttempts, emailFind, h]

/-- One operation never decreases the attempts counter of an existing
cloud job. -/
theorem cloudAttempts_step_mono (db : QueueDB) (op : QueueOp) (qid : Nat)
    (a : Nat) (h : cloudAttempts db qid = some a) :
    ∃ a', cloudAttempts (applyOp db op) qid = some a' ∧ a ≤ a' := by
  simp only [cloudAttempts, Option.map_eq_some'] at h
  obtain ⟨j, hj, hja⟩ := h
  cases op with
  | enqCloud vid now =>
    refine ⟨a, ?_, le_refl a⟩
    simp only [applyOp, enqueueCloud, cloudAttempts, cloudFind] at hj ⊢
    rw [find?_append_of_found _ _ _ _ hj]
    simp [hja]
  | pendingCloud limit =>
    exact ⟨a, by simp [applyOp, cloudAttempts, hj, hja], le_refl a⟩
  | updCloud qid' s rj em now =>
    have hf := cloudFind_update db qid qid' s rj em now j hj
    by_cases hq : j.id = qid'
    · refine ⟨a + 1, ?_, Nat.le_succ a⟩
      simp only [applyOp, cloudAttempts, hf, if_pos hq]
      simp [cloudRowUpdate, hja]
    · refine ⟨a, ?_, le_refl a⟩
      simp only [applyOp, cloudAttempts, hf, if_neg hq]
      simp [hja]
  | enqEmail vid now =>
    refine ⟨a, ?_, le_refl a⟩
    rw [cloudAttempts_congr (applyOp db (.enqEmail vid now)) db qid rfl]
    simp [cloudAttempts, hj, hja]
  | pendingEmail limit =>
    exact ⟨a, by simp [applyOp, cloudAttempts, hj, hja], le_refl a⟩
  | updEmail qid' s em now =>
    refine ⟨a, ?_, le_refl a⟩
    rw [cloudAttempts_congr (applyOp db (.updEmail qid' s em now)) db qid rfl]
    simp [cloudAttempts, hj, hja]

/-- One operation never decreases the attempts counter of an existing
email job. -/
theorem emailAttempts_step_mono (db : QueueDB) (op : QueueOp) (qid : Nat)
    (a : Nat) (h : emailAttempts db qid = some a) :
    ∃ a', emailAttempts (applyOp db op) qid = some a' ∧ a ≤ a' := by
  simp only [emailAttempts, Option.map_eq_some'] at h
  obtain ⟨j, hj, hja⟩ := h
  cases op with
  | enqEmail vid now =>
    refine ⟨a, ?_, le_refl a⟩
    simp only [applyOp, enqueueEmail, emailAttempts, emailFind] at hj ⊢
    rw [find?_append_of_found _ _ _ _ hj]
    simp [hja]
  | pendingEmail limit =>
    exact ⟨a, by simp [applyOp, emailAttempts, hj, hja], le_refl a⟩
  | updEmail qid' s em now =>
    have hf := emailFind_update db qid qid' s em now j hj
    by_cases hq : j.id = qid'
    · refine ⟨a + 1, ?_, Nat.le_succ a⟩
      simp only [applyOp, emailAttempts, hf, if_pos hq]
      simp [emailRowUpdate, hja]
    · refine ⟨a, ?_, le_refl a⟩
      simp only [applyOp, emailAttempts, hf, if_neg hq]
      simp [hja]
  | enqCloud vid now =>
    refine ⟨a, ?_, le_refl a⟩
    rw [emailAttempts_congr (applyOp db (.enqCloud vid now)) db qid rfl]
    simp [emailAttempts, hj, hja]
  | pendingCloud limit =>
    exact ⟨a, by simp [applyOp, emailAttempts, hj, hja], le_refl a⟩
  | updCloud qid' s rj em now =>
    refine ⟨a, ?_, le_refl a⟩
    rw [emailAttempts_congr (applyOp db (.updCloud qid' s rj em now)) db qid rfl]
    simp [emailAttempts, hj, hja]

/-- Attempts are monotone along any operation sequence (cloud). -/
theorem cloudAttempts_runOps_mono (ops : List QueueOp) :
    ∀ (db : QueueDB) (qid a : Nat), cloudAttempts db qid = some a →
      ∃ a', cloudAttempts (runOps db ops) qid = some a' ∧ a ≤ a' := by
  induction ops with
  | nil => intro db qid a h; exact ⟨a, h, le_refl a⟩
  | cons op ops ih =>
    intro db qid a h
    obtain ⟨b, hb, hab⟩ := cloudAttempts_step_mono db op qid a h
    obtain ⟨a', ha', hba'⟩ := ih (applyOp db op) qid b hb
    exact ⟨a', ha', le_trans hab hba'⟩

/-- Attempts are monotone along any operation sequence (email). -/
theorem emailAttempts_runOps_mono (ops : List QueueOp) :
    ∀ (db : QueueDB) (qid a : Nat), emailAttempts db qid = some a →
      ∃ a', emailAttempts (runOps db ops) qid = some a' ∧ a ≤ a' := by
  induction ops with
  | nil => intro db qid a h; exact ⟨a, h, le_refl a⟩
  | cons op ops ih =>
    intro db qid a h
    obtain ⟨b, hb, hab⟩ := emailAttempts_step_mono db op qid a h
    obtain ⟨a', ha', hba'⟩ := ih (applyOp db op) qid b hb
    exact ⟨a', ha', le_trans hab hba'⟩

/-! ## Bounding boxes and detections (src/models.py) -/

/-- BoundingBox with pixel coordinates and detector confidence. -/
structure BBox where
  x1 : ℚ
  y1 : ℚ
  x2 : ℚ
  y2 : ℚ
  confidence : ℚ
  class_name : String
  class_id : Int
deriving DecidableEq, Repr

namespace BBox

/-- BoundingBox.width (clamped non-negative). -/
def width (b : BBox) : ℚ := max 0 (b.x2 - b.x1)

/-- BoundingBox.height (clamped non-negative). -/
def height (b : BBox) : ℚ := max 0 (b.y2 - b.y1)

/-- BoundingBox.area. -/
def area (b : BBox) : ℚ := b.width * b.height

/-- BoundingBox.center. -/
def center (b : BBox) : ℚ × ℚ := ((b.x1 + b.x2) / 2, (b.y1 + b.y2) / 2)

/-- BoundingBox.iou: intersection area over union area, 0 when the union
is not positive. -/
def iou (b o : BBox) : ℚ :=
  let ix1 := max b.x1 o.x1
  let iy1 := max b.y1 o.y1
  let ix2 := min b.x2 o.x2
  let iy2 := min b.y2 o.y2
  let interW := max 0 (ix2 - ix1)
  let interH := max 0 (iy2 - iy1)
  let interArea := interW * interH
  let unionArea := b.area + o.area - interArea
  if unionArea ≤ 0 then 0 else interArea / unionArea

end BBox

/-- Detection (track_id is the only mutable field; it is carried as an
Option and stamped by the tracker). -/
structure Detection where
  bbox : BBox
  frame_id : Int
  timestamp : ℚ
  track_id : Option Int
deriving DecidableEq, Repr

/-! ## IoU tracker (src/detection/tracker.py) -/

/-- A tracked object across frames. -/
structure Track where
  track_id : Int
  bbox : BBox
  class_name : String
  age : Nat
  missing_frames : Nat
  total_visible : Nat
deriving DecidableEq, Repr

/-- Tracker state: threshold and ceiling configuration plus the live
track list and the fresh-id counter. -/
structure IOUTracker where
  iou_threshold : ℚ
  max_missing_frames : Nat
  tracks : List Track
  next_id : Int
deriving DecidableEq, Repr

/-- IOUTracker.__init__. -/
def trackerInit (thr : ℚ) (maxMissing : Nat) : IOUTracker :=
  { iou_threshold := thr, max_missing_frames := maxMissing,
    tracks := [], next_id := 1 }

/-- IOUTracker.reset. -/
def trackerReset (t : IOUTracker) : IOUTracker :=
  { t with tracks := [], next_id := 1 }

/-- Placeholder used only for provably in-bounds positional lookups. -/
def dummyDet : Detection :=
  { bbox := { x1 := 0, y1 := 0, x2 := 0, y2 := 0, confidence := 0,
              class_name := "", class_id := 0 },
    frame_id := 0, timestamp := 0, track_id := none }

/-- Placeholder used only for provably in-bounds positional lookups. -/
def dummyTrack : Track :=
  { track_id := 0, bbox := dummyDet.bbox, class_name := "", age := 0,
    missing_frames := 0, total_visible := 0 }

/-- Positional detection lookup. -/
def getDet (dets : List Detection) (di : Nat) : Detection := dets.getD di dummyDet

/-- The track id stored at a track index. -/
def trackIdAt (tracks : List Track) (ti : Nat) : Int :=
  (tracks.getD ti dummyTrack).track_id

/-- The IoU-above-threshold candidate triples (track_index,
detection_index, iou), generated detection-major exactly as the nested
loop in IOUTracker.update does. -/
def candidateTriples (t : IOUTracker) (dets : List Detection) :
    List (Nat × Nat × ℚ) :=
  dets.enum.flatMap (fun dp =>
    t.tracks.enum.filterMap (fun tp =>
      if t.iou_threshold ≤ dp.2.bbox.iou tp.2.bbox then
        some (tp.1, dp.1, dp.2.bbox.iou tp.2.bbox)
      else none))

/-- Greedy assignment over a sorted triple list: accept a pairing when
neither its track index nor its detection index was used before. -/
def greedyAssign : List (Nat × Nat × ℚ) → List Nat → List Nat →
    List (Nat × Nat) → List (Nat × Nat)
  | [], _, _, pairs => pairs
  | (ti, di, _) :: rest, mT, mD, pairs =>
    if ti ∈ mT ∨ di ∈ mD then greedyAssign rest mT mD pairs
    else greedyAssign rest (ti :: mT) (di :: mD) (pairs ++ [(ti, di)])

/-- The greedy matching of IOUTracker.update: triples sorted by IoU
descending (Python sort is stable, so equal IoUs keep generation order),
then greedily accepted. -/
def matchedPairs (t : IOUTracker) (dets : List Detection) : List (Nat × Nat) :=
  greedyAssign ((candidateTriples t dets).insertionSort
    (fun a b => b.2.2 ≤ a.2.2)) [] [] []

/-- The per-detection pass of IOUTracker.update: matched detections are
stamped with the matched track's id; unmatched detections receive the
next fresh ids in detection order and spawn new tracks.  Returns the
stamped detections, the new tracks (in creation order) and the final
counter value. -/
def assignPass (matched : List (Nat × Nat)) (tracks : List Track) :
    List Detection → Nat → Int → List Detection × List Track × Int
  | [], _, nid => ([], [], nid)
  | det :: rest, di, nid =>
    match (matched.find? (fun q => q.2 = di)) with
    | some p =>
      let r := assignPass matched tracks rest (di + 1) nid
      ({ det with track_id := some (trackIdAt tracks p.1) } :: r.1, r.2.1, r.2.2)
    | none =>
      let r := assignPass matched tracks rest (di + 1) (nid + 1)
      ({ det with track_id := some nid } :: r.1,
        { track_id := nid, bbox := det.bbox, class_name := det.bbox.class_name,
          age := 0, missing_frames := 0, total_visible := 1 } :: r.2.1,
        r.2.2)

/-- The matched-track refresh of IOUTracker.update: a matched track gets
the detection's bbox and class, age + 1, missing_frames reset to 0 and
total_visible + 1. -/
def refreshTracks (matched : List (Nat × Nat)) (dets : List Detection) :
    List Track → Nat → List Track
  | [], _ => []
  | tr :: rest, ti =>
    let tr' := match (matched.find? (fun p => p.1 = ti)) with
      | some p =>
        { tr with
          bbox := (getDet dets p.2).bbox,
          class_name := (getDet dets p.2).bbox.class_name,
          age := tr.age + 1,
          missing_frames := 0,
          total_visible := tr.total_visible + 1 }
      | none => tr
    tr' :: refreshTracks matched dets rest (ti + 1)

/-- The missing-frame increment of IOUTracker.update.  It runs over the
whole extended track list (the newly created tracks included, whose
indices are never matched), exactly as the enumerate loop in the source
does after the new tracks were appended. -/
def bumpMissing (matchedTIs : List Nat) : List Track → Nat → List Track
  | [], _ => []
  | tr :: rest, ti =>
    (if ti ∈ matchedTIs then tr else { tr with missing_frames := tr.missing_frames + 1 })
      :: bumpMissing matchedTIs rest (ti + 1)

/-- IOUTracker.update. -/
def trackerUpdate (t : IOUTracker) (dets : List Detection) :
    IOUTracker × List Detection :=
  if t.tracks.isEmpty then
    let r := assignPass [] t.tracks dets 0 t.next_id
    ({ t with tracks := t.tracks ++ r.2.1, next_id := r.2.2 }, r.1)
  else
    let matched := matchedPairs t dets
    let r := assignPass matched t.tracks dets 0 t.next_id
    let refreshed := refreshTracks matched dets t.tracks 0
    let extended := refreshed ++ r.2.1
    let bumped := bumpMissing (matched.map Prod.fst) extended 0
    let kept := bumped.filter (fun tr => tr.missing_frames ≤ t.max_missing_frames)
    ({ t with tracks := kept, next_id := r.2.2 }, r.1)

/-- IOUTracker.all_tracks. -/
def allTracks (t : IOUTracker) : List Track := t.tracks

/-- IOUTracker.active_tracks. -/
def activeTracks (t : IOUTracker) : List Track :=
  t.tracks.filter (fun tr => tr.missing_frames = 0)

/-! ## Rule engine (src/violation/rules.py)

The engine is modelled generically over the injected rule set, mirroring
the constructor parameter `rules: list[ViolationRule]`; a rule is its
violation-type string plus its evaluate function.  The context dict is
the classification_conf entry the engine itself reads, plus an opaque
payload only the rules see.  The separate `time.monotonic()` readings
inside one process_frame call are modelled by one rational `now`. -/

/-- GPSReading (the fields the engine and rules read). -/
structure GPSReading where
  latitude : ℚ
  longitude : ℚ
  altitude : ℚ
  speed_kmh : ℚ
  heading : ℚ
deriving DecidableEq, Repr

/-- FrameData: hasFrame models `frame is not None`. -/
structure FrameData where
  hasFrame : Bool
  frame_id : Int
  timestamp : ℚ
  gps : Option GPSReading
  detections : List Detection
deriving DecidableEq, Repr

/-- The per-rule configuration lookups with their code defaults
(enabled True, min_consecutive_frames 3, confidence_threshold 0.7,
cooldown_seconds 30). -/
structure RuleConfig where
  enabled : Bool
  min_consecutive_frames : Nat
  confidence_threshold : ℚ
  cooldown_seconds : ℚ
deriving DecidableEq, Repr

/-- The context map: the engine reads classification_conf; the payload is
whatever the rule implementations consult. -/
structure EngineCtx (A : Type) where
  classification_conf : Option ℚ
  payload : A

/-- A violation rule: its type string and its evaluate capability
returning (track_id, raw_confidence) hits. -/
structure EngineRule (A : Type) where
  vtype : String
  evaluate : FrameData → EngineCtx A → List (Int × ℚ)

/-- ViolationCandidate as built by RuleEngine.process_frame. -/
structure Candidate where
  violation_type : String
  confidence : ℚ
  gps : Option GPSReading
  timestamp : ℚ
  consecutive_frame_count : Nat
  best_frame : Option FrameData
deriving DecidableEq, Repr

/-- RuleEngine state. -/
structure RuleEngine (A : Type) where
  rules : List (EngineRule A)
  ruleConfigs : String → RuleConfig
  speed_gate_kmh : ℚ
  max_reports_per_hour : Nat
  temporal : TemporalState
  cooldowns : String → ℚ
  report_times : List ℚ

/-- The mutable bookkeeping while one frame is processed. -/
structure EngineSt where
  temporal : TemporalState
  cooldowns : String → ℚ
  report_times : List ℚ

/-- RuleEngine._check_cooldown: time since last report of this type
reached the configured cooldown (the dict lookup defaults to 0). -/
def checkCooldown (cooldowns : String → ℚ) (cfg : RuleConfig) (vtype : String)
    (now : ℚ) : Bool :=
  cfg.cooldown_seconds ≤ now - cooldowns vtype

/-- RuleEngine._check_rate_limit: prune entries an hour old or older and
compare against the hourly maximum; the pruned list is written back. -/
def checkRateLimit (reportTimes : List ℚ) (maxReports : Nat) (now : ℚ) :
    List ℚ × Bool :=
  let pruned := reportTimes.filter (fun ts => now - ts < 3600)
  (pruned, decide (pruned.length < maxReports))

/-- RuleEngine._record_report. -/
def recordReport (st : EngineSt) (vtype : String) (now : ℚ) : EngineSt :=
  { st with
    cooldowns := fun v => if v = vtype then now else st.cooldowns v,
    report_times := st.report_times ++ [now] }

/-- Processing of one (track_id, raw_confidence) hit inside
process_frame: threshold gate, temporal update, then the short-circuit
cooldown-and-rate-limit check, and on success the aggregated candidate
plus the report bookkeeping. -/
def processHit {A : Type} (ctx : EngineCtx A) (fd : FrameData) (now : ℚ)
    (vtype : String) (cfg : RuleConfig) (maxReports : Nat)
    (st : EngineSt) (cands : List Candidate) (hit : Int × ℚ) :
    EngineSt × List Candidate :=
  if hit.2 < cfg.confidence_threshold then (st, cands)
  else
    let tstep := temporalUpdate st.temporal vtype hit.1 true cfg.min_consecutive_frames
    let st1 : EngineSt := { st with temporal := tstep.1 }
    if tstep.2 then
      if checkCooldown st1.cooldowns cfg vtype now then
        let rl := checkRateLimit st1.report_times maxReports now
        let st2 : EngineSt := { st1 with report_times := rl.1 }
        if rl.2 then
          let count := temporalGetCount st2.temporal vtype hit.1
          let ratio := (count : ℚ) / (cfg.min_consecutive_frames : ℚ)
          let aggConf := compute defaultWeights hit.2
            (ctx.classification_conf.getD hit.2) ratio none
          let cand : Candidate :=
            { violation_type := vtype, confidence := aggConf, gps := fd.gps,
              timestamp := fd.timestamp, consecutive_frame_count := count,
              best_frame := if fd.hasFrame then some fd else none }
          (recordReport st2 vtype now, cands ++ [cand])
        else (st2, cands)
      else (st1, cands)
    else (st1, cands)

/-- The reset loop after a rule's hits: every tracked detection of the
frame that is not among the rule's hits feeds condition_met = false. -/
def resetPass (vtype : String) (mf : Nat) (activeHits : List Int)
    (dets : List Detection) (temporal : TemporalState) : TemporalState :=
  dets.foldl (fun tstate det =>
    match det.track_id with
    | some tid =>
      if tid ∈ activeHits then tstate
      else (temporalUpdate tstate vtype tid false mf).1
    | none => tstate) temporal

/-- One rule's turn inside process_frame. -/
def processRule {A : Type} (ctx : EngineCtx A) (fd : FrameData) (now : ℚ)
    (ruleConfigs : String → RuleConfig) (maxReports : Nat)
    (acc : EngineSt × List Candidate) (rule : EngineRule A) :
    EngineSt × List Candidate :=
  let cfg := ruleConfigs rule.vtype
  if cfg.enabled then
    let hits := rule.evaluate fd ctx
    let afterHits := hits.foldl
      (fun a hit => processHit ctx fd now rule.vtype cfg maxReports a.1 a.2 hit) acc
    ({ afterHits.1 with
        temporal := resetPass rule.vtype cfg.min_consecutive_frames
          (hits.map Prod.fst) fd.detections afterHits.1.temporal },
      afterHits.2)
  else acc

/-- The GPS speed gate of process_frame. -/
def speedGateBlocked {A : Type} (e : RuleEngine A) (fd : FrameData) : Bool :=
  match fd.gps with
  | some g => g.speed_kmh < e.speed_gate_kmh
  | none => false

/-- RuleEngine.process_frame. -/
def processFrame {A : Type} (e : RuleEngine A) (fd : FrameData)
    (ctx : EngineCtx A) (now : ℚ) : RuleEngine A × List Candidate :=
  if speedGateBlocked e fd then (e, [])
  else
    let res := e.rules.foldl
      (processRule ctx fd now e.ruleConfigs e.max_reports_per_hour)
      (⟨e.temporal, e.cooldowns, e.report_times⟩, [])
    ({ e with
        temporal := res.1.temporal,
        cooldowns := res.1.cooldowns,
        report_times := res.1.report_times },
      res.2)

/-! ## Evidence best-frame selection (src/reporting/evidence.py) -/

/-- Sum of a frame's detection confidences (an empty detection list
scores 0, exactly like the conditional in the source). -/
def sumConf (fd : FrameData) : ℚ :=
  (fd.detections.map (fun d => d.bbox.confidence)).sum

/-- One dict assignment frame_scores[fd.frame_id] = total_conf. -/
def scoreStep (m : Int → Option ℚ) (fd : FrameData) : Int → Option ℚ :=
  fun k => if k = fd.frame_id then some (sumConf fd) else m k

/-- The frame_id -> total-confidence dict built from the candidate's own
frames snapshot (a later duplicate frame_id overwrites an earlier one,
as dict assignment does). -/
def frameScores (snapshot : List FrameData) : Int → Option ℚ :=
  snapshot.foldl scoreStep (fun _ => none)

/-- frame_scores.get(frame_id, 0.0). -/
def lookupScore (snapshot : List FrameData) (fid : Int) : ℚ :=
  (frameScores snapshot fid).getD 0

/-- EvidencePackager._select_best_frames: score every pulled frame from
the snapshot dict (absent ids score 0), stable-sort descending by score
and keep the first `count`. -/
def selectBestFrames (snapshot : List FrameData) (clipFrames : List FrameData)
    (count : Nat) : List FrameData :=
  if clipFrames.isEmpty then []
  else
    let scored := clipFrames.map (fun bf => (bf, lookupScore snapshot bf.frame_id))
    let sorted := scored.insertionSort (fun a b => b.2 ≤ a.2)
    (sorted.take count).map Prod.fst

end TrafficEye

namespace TrafficEye

/-- C1: for a fixed (rule_id, track_id) pair and min_frames >= 1, update
returns false on every call before the min_frames-th consecutive true call,
returns true on that call and on all later calls while the condition keeps
holding, and a single call with condition_met = false resets the stored
count to 0 (and itself returns false), so a full run of min_frames
consecutive true calls is required again. -/
theorem claim_C1_temporal_consistency (vt : String) (tid : Int) (mf k : Nat)
    (hmf : 1 ≤ mf) :
    ((temporalRun initTemporal vt tid mf (List.replicate k true)).2
        = (List.range k).map (fun i => decide (mf ≤ i + 1)))
    ∧ (∀ s : TemporalState,
        (temporalUpdate s vt tid false mf).1 (vt, tid) = 0
        ∧ (temporalUpdate s vt tid false mf).2 = false)
    ∧ (∀ s : TemporalState, s (vt, tid) = 0 →
        (temporalRun s vt tid mf (List.replicate k true)).2
          = (List.range k).map (fun i => decide (mf ≤ i + 1))) := by
  refine ⟨?_, ?_, ?_⟩
  · rw [temporalRun_true_outputs]
    simp [initTemporal]
  · intro s
    constructor
    · simp [temporalUpdate]
    · simp [temporalUpdate]
      omega
  · intro s hs
    rw [temporalRun_true_outputs, hs]
    simp

/-- Concrete instance of C1: with min_frames = 3, five consecutive true
calls from a fresh checker return false, false, true, true, true. -/
theorem claim_C1_witness :
    (temporalRun initTemporal "no_helmet" 1 3 (List.replicate 5 true)).2
      = [false, false, true, true, true] := by
  have h := (claim_C1_temporal_consistency "no_helmet" 1 3 5 (by norm_num)).1
  rw [h]
  rfl

/-- C2: with the default weights, compute equals the clamp to [0,1] of
0.3 d + 0.3 c + 0.2 clamp01(t) + 0.2 o when ocr_conf is given, and of
(0.3 d + 0.3 c + 0.2 clamp01(t)) / 0.8 when it is absent; in particular
compute 0 0 0 = 0 and compute 1 1 1 1 = 1, and the no-OCR result stays in
[0,1] (same scale, not systematically lower). -/
theorem claim_C2_compute_default (d c t o : ℚ) :
    (compute defaultWeights d c t (some o)
        = clamp01 ((3/10) * d + (3/10) * c + (2/10) * clamp01 t + (2/10) * o))
    ∧ (compute defaultWeights d c t none
        = clamp01 (((3/10) * d + (3/10) * c + (2/10) * clamp01 t) / (8/10)))
    ∧ compute defaultWeights 0 0 0 none = 0
    ∧ compute defaultWeights 1 1 1 (some 1) = 1
    ∧ 0 ≤ compute defaultWeights d c t none
    ∧ compute defaultWeights d c t none ≤ 1 := by
  have hc := clamp_comm t
  refine ⟨?_, ?_, by norm_num [compute, defaultWeights, clamp01],
    by norm_num [compute, defaultWeights, clamp01], ?_, ?_⟩
  · simp only [compute, defaultWeights, clamp01, hc]
    ring_nf
  · simp only [compute, defaultWeights, clamp01, hc]
    norm_num
    ring_nf
  · simp only [compute, defaultWeights]
    positivity
  · simp only [compute, defaultWeights]
    exact le_trans (max_le (by norm_num) (min_le_left _ _)) (le_refl 1)

/-- C7: with the default thresholds 0.70 and 0.96, the three routing
predicates are characterised by the three half-open bands, and for every
confidence value exactly one of them holds. -/
theorem claim_C7_routing_bands (conf : ℚ) :
    (meetsLocalThreshold conf (96/100) = true ↔ 96/100 ≤ conf)
    ∧ (needsCloudVerification conf (7/10) (96/100) = true
        ↔ (7/10 ≤ conf ∧ conf < 96/100))
    ∧ (shouldDiscard conf (7/10) = true ↔ conf < 7/10)
    ∧ (meetsLocalThreshold conf (96/100) = true
        ∨ needsCloudVerification conf (7/10) (96/100) = true
        ∨ shouldDiscard conf (7/10) = true)
    ∧ ¬(meetsLocalThreshold conf (96/100) = true
        ∧ needsCloudVerification conf (7/10) (96/100) = true)
    ∧ ¬(meetsLocalThreshold conf (96/100) = true
        ∧ shouldDiscard conf (7/10) = true)
    ∧ ¬(needsCloudVerification conf (7/10) (96/100) = true
        ∧ shouldDiscard conf (7/10) = true) := by
  have hM : meetsLocalThreshold conf (96/100) = true ↔ 96/100 ≤ conf := by
    simp [meetsLocalThreshold]
  have hC : needsCloudVerification conf (7/10) (96/100) = true
      ↔ (7/10 ≤ conf ∧ conf < 96/100) := by
    simp [needsCloudVerification]
  have hD : shouldDiscard conf (7/10) = true ↔ conf < 7/10 := by
    simp [shouldDiscard]
  refine ⟨hM, hC, hD, ?_, ?_, ?_, ?_⟩
  · rcases le_or_lt (96/100 : ℚ) conf with h | h
    · exact Or.inl (hM.mpr h)
    · rcases le_or_lt (7/10 : ℚ) conf with h2 | h2
      · exact Or.inr (Or.inl (hC.mpr ⟨h2, h⟩))
      · exact Or.inr (Or.inr (hD.mpr h2))
  · rintro ⟨h1, h2⟩
    have a1 := hM.mp h1
    have a2 := (hC.mp h2).2
    linarith
  · rintro ⟨h1, h2⟩
    have a1 := hM.mp h1
    have a2 := hD.mp h2
    linarith
  · rintro ⟨h1, h2⟩
    have a1 := (hC.mp h1).1
    have a2 := hD.mp h2
    linarith

/-- C6: when GPS is present with speed_kmh below the configured gate,
process_frame returns the empty list and the whole engine state —
temporal counters, cooldown stamps and the hourly report window — is
unchanged, for every frame, context and clock reading. -/
theorem claim_C6_speed_gate {A : Type} (e : RuleEngine A) (fd : FrameData)
    (ctx : EngineCtx A) (now : ℚ) (g : GPSReading) (hg : fd.gps = some g)
    (hs : g.speed_kmh < e.speed_gate_kmh) :
    processFrame e fd ctx now = (e, []) := by
  simp [processFrame, speedGateBlocked, hg, hs]

/-- A minimal rule configuration record (the code defaults). -/
def defaultRuleConfig : RuleConfig :=
  { enabled := true, min_consecutive_frames := 3,
    confidence_threshold := 7/10, cooldown_seconds := 30 }

/-- A concrete engine with no rules, used to instantiate the engine
theorems. -/
def engineW : RuleEngine Unit :=
  { rules := [], ruleConfigs := fun _ => defaultRuleConfig,
    speed_gate_kmh := 5, max_reports_per_hour := 20,
    temporal := initTemporal, cooldowns := fun _ => 0, report_times := [] }

/-- A concrete frame moving at 2 km/h against the 5 km/h gate. -/
def frameW : FrameData :=
  { hasFrame := false, frame_id := 0, timestamp := 0,
    gps := some { latitude := 0, longitude := 0, altitude := 0,
                  speed_kmh := 2, heading := 0 },
    detections := [] }

/-- Concrete instance of C6: 2 km/h against a 5 km/h gate is a no-op. -/
theorem claim_C6_witness :
    processFrame engineW frameW ⟨none, ()⟩ 0 = (engineW, []) :=
  claim_C6_speed_gate engineW frameW ⟨none, ()⟩ 0
    { latitude := 0, longitude := 0, altitude := 0, speed_kmh := 2, heading := 0 }
    rfl (by norm_num [engineW, frameW])

/-- C9: across every sequence of queue operations the attempts counter of
an existing cloud or email job never decreases, and one
update_cloud_status / update_email_status step (one transaction) writes
the new status and the incremented attempts to the row simultaneously. -/
theorem claim_C9_attempts_monotone_atomic :
    (∀ (db : QueueDB) (ops : List QueueOp) (qid a : Nat),
        cloudAttempts db qid = some a →
        ∃ a', cloudAttempts (runOps db ops) qid = some a' ∧ a ≤ a')
    ∧ (∀ (db : QueueDB) (ops : List QueueOp) (qid a : Nat),
        emailAttempts db qid = some a →
        ∃ a', emailAttempts (runOps db ops) qid = some a' ∧ a ≤ a')
    ∧ (∀ (db : QueueDB) (qid : Nat) (s : String) (rj em : Option String)
        (now : ℚ) (j : CloudJob), cloudFind db qid = some j →
        cloudFind (updateCloudStatus db qid s rj em now) qid
          = some (cloudRowUpdate s rj em now j))
    ∧ (∀ (db : QueueDB) (qid : Nat) (s : String) (em : Option String)
        (now : ℚ) (j : EmailJob), emailFind db qid = some j →
        emailFind (updateEmailStatus db qid s em now) qid
          = some (emailRowUpdate s em now j)) := by
  refine ⟨fun db ops => cloudAttempts_runOps_mono ops db,
    fun db ops => emailAttempts_runOps_mono ops db, ?_, ?_⟩
  · intro db qid s rj em now j hj
    have hjid : j.id = qid := by
      have := List.find?_some hj
      simpa using this
    have hf := cloudFind_update db qid qid s rj em now j hj
    simpa [applyOp, if_pos hjid] using hf
  · intro db qid s em now j hj
    have hjid : j.id = qid := by
      have := List.find?_some hj
      simpa using this
    have hf := emailFind_update db qid qid s em now j hj
    simpa [applyOp, if_pos hjid] using hf

/-- Concrete instance of C9: one update step takes the single job from
attempts 0 to a value at least 0, with the row still found. -/
theorem claim_C9_witness :
    ∃ a', cloudAttempts (runOps
        ⟨[⟨1, "v-1", "pending", 0, none, none, none, 0, 0⟩], [], 2, 1⟩
        [QueueOp.updCloud 1 "done" none none 5]) 1 = some a' ∧ 0 ≤ a' :=
  claim_C9_attempts_monotone_atomic.1
    ⟨[⟨1, "v-1", "pending", 0, none, none, none, 0, 0⟩], [], 2, 1⟩
    [QueueOp.updCloud 1 "done" none none 5] 1 0 rfl

theorem filter_filter_self {α : Type} (p : α → Bool) (l : List α) :
    (l.filter p).filter p = l.filter p := by
  induction l with
  | nil => rfl
  | cons a l ih =>
    by_cases ha : p a <;> simp [List.filter_cons, ha, ih]

theorem foldl_invariant {α β : Type} (P : β → Prop) (f : β → α → β)
    (l : List α) : ∀ (b : β), P b → (∀ b' a, a ∈ l → P b' → P (f b' a)) →
    P (l.foldl f b) := by
  induction l with
  | nil => intro b hb _; exact hb
  | cons a l ih =>
    intro b hb hf
    exact ih (f b a) (hf b a (List.mem_cons_self a l) hb)
      (fun b' x hx => hf b' x (List.mem_cons_of_mem a hx))

/-- Exhaustive effect description of one hit: either nothing is emitted
and the cooldown stamps and candidate list are untouched (the report
window at most pruned), or the cooldown and rate-limit checks both
passed and exactly one candidate of the rule's type is appended while
the report is recorded. -/
theorem processHit_cases {A : Type} (ctx : EngineCtx A) (fd : FrameData)
    (now : ℚ) (w : String) (cfg : RuleConfig) (maxR : Nat) (st : EngineSt)
    (cands : List Candidate) (hit : Int × ℚ) :
    ((processHit ctx fd now w cfg maxR st cands hit).1.cooldowns = st.cooldowns
      ∧ (processHit ctx fd now w cfg maxR st cands hit).2 = cands
      ∧ ((processHit ctx fd now w cfg maxR st cands hit).1.report_times
            = st.report_times
         ∨ (processHit ctx fd now w cfg maxR st cands hit).1.report_times
            = st.report_times.filter (fun ts => now - ts < 3600)))
    ∨ (cfg.cooldown_seconds ≤ now - st.cooldowns w
        ∧ (st.report_times.filter (fun ts => now - ts < 3600)).length < maxR
        ∧ (processHit ctx fd now w cfg maxR st cands hit).1.cooldowns
            = (fun x => if x = w then now else st.cooldowns x)
        ∧ (processHit ctx fd now w cfg maxR st cands hit).1.report_times
            = st.report_times.filter (fun ts => now - ts < 3600) ++ [now]
        ∧ ∃ cand : Candidate, cand.violation_type = w
            ∧ (processHit ctx fd now w cfg maxR st cands hit).2
                = cands ++ [cand]) := by
  unfold processHit
  dsimp only
  split_ifs with h1 h2 h3 h4 h5 <;>
    first
      | exact Or.inl ⟨rfl, rfl, Or.inl rfl⟩
      | exact Or.inl ⟨rfl, rfl, Or.inr rfl⟩
      | exact Or.inr ⟨by simpa [checkCooldown] using h3,
          by simpa [checkRateLimit] using h4,
          by simp [recordReport],
          by simp [recordReport, checkRateLimit], _, rfl, rfl⟩

/-- processRule leaves cooldowns, report window and candidates exactly
as the inner hit fold left them (it only also runs the temporal reset
pass), so any property of those three components is preserved from the
hit level. -/
theorem processRule_effect {A : Type}
    (P : (String → ℚ) → List ℚ → List Candidate → Prop)
    (ctx : EngineCtx A) (fd : FrameData) (now : ℚ)
    (ruleConfigs : String → RuleConfig) (maxR : Nat)
    (hstep : ∀ (w : String) (st : EngineSt) (cands : List Candidate)
      (hit : Int × ℚ), P st.cooldowns st.report_times cands →
      P (processHit ctx fd now w (ruleConfigs w) maxR st cands hit).1.cooldowns
        (processHit ctx fd now w (ruleConfigs w) maxR st cands hit).1.report_times
        (processHit ctx fd now w (ruleConfigs w) maxR st cands hit).2)
    (acc : EngineSt × List Candidate) (rule : EngineRule A)
    (hP : P acc.1.cooldowns acc.1.report_times acc.2) :
    P (processRule ctx fd now ruleConfigs maxR acc rule).1.cooldowns
      (processRule ctx fd now ruleConfigs maxR acc rule).1.report_times
      (processRule ctx fd now ruleConfigs maxR acc rule).2 := by
  unfold processRule
  dsimp only
  split_ifs with hen
  · have := foldl_invariant
      (fun a : EngineSt × List Candidate => P a.1.cooldowns a.1.report_times a.2)
      (fun a hit => processHit ctx fd now rule.vtype (ruleConfigs rule.vtype) maxR a.1 a.2 hit)
      (rule.evaluate fd ctx) acc hP
      (fun a hit _ h => hstep rule.vtype a.1 a.2 hit h)
    exact this
  · exact hP

/-- Any hit-level-preserved property of cooldowns, report window and
candidates holds after process_frame when it holds of the initial engine
state together with the empty candidate list. -/
theorem processFrame_invariant {A : Type}
    (P : (String → ℚ) → List ℚ → List Candidate → Prop)
    (e : RuleEngine A) (fd : FrameData) (ctx : EngineCtx A) (now : ℚ)
    (hstep : ∀ (w : String) (st : EngineSt) (cands : List Candidate)
      (hit : Int × ℚ), P st.cooldowns st.report_times cands →
      P (processHit ctx fd now w (e.ruleConfigs w) e.max_reports_per_hour st cands hit).1.cooldowns
        (processHit ctx fd now w (e.ruleConfigs w) e.max_reports_per_hour st cands hit).1.report_times
        (processHit ctx fd now w (e.ruleConfigs w) e.max_reports_per_hour st cands hit).2)
    (hinit : P e.cooldowns e.report_times []) :
    P (processFrame e fd ctx now).1.cooldowns
      (processFrame e fd ctx now).1.report_times
      (processFrame e fd ctx now).2 := by
  unfold processFrame
  dsimp only
  split_ifs with hgate
  · exact hinit
  · exact foldl_invariant
      (fun a : EngineSt × List Candidate => P a.1.cooldowns a.1.report_times a.2)
      (processRule ctx fd now e.ruleConfigs e.max_reports_per_hour)
      e.rules ⟨⟨e.temporal, e.cooldowns, e.report_times⟩, []⟩ hinit
      (fun acc rule _ h =>
        processRule_effect P ctx fd now e.ruleConfigs e.max_reports_per_hour
          hstep acc rule h)

/-- process_frame does not change the configuration fields. -/
theorem processFrame_config {A : Type} (e : RuleEngine A) (fd : FrameData)
    (ctx : EngineCtx A) (now : ℚ) :
    (processFrame e fd ctx now).1.ruleConfigs = e.ruleConfigs
    ∧ (processFrame e fd ctx now).1.max_reports_per_hour = e.max_reports_per_hour := by
  unfold processFrame
  dsimp only
  split_ifs <;> exact ⟨rfl, rfl⟩

theorem scoreFold_absent :
    ∀ (l : List FrameData) (acc : Int → Option ℚ) (fid : Int),
      fid ∉ l.map FrameData.frame_id → l.foldl scoreStep acc fid = acc fid := by
  intro l
  induction l with
  | nil => intro acc fid _; rfl
  | cons a l ih =>
    intro acc fid hf
    simp only [List.map_cons, List.mem_cons, not_or] at hf
    rw [List.foldl_cons, ih _ _ hf.2]
    simp [scoreStep, hf.1]

theorem scoreFold_mem :
    ∀ (l : List FrameData) (acc : Int → Option ℚ) (fd : FrameData),
      (l.map FrameData.frame_id).Nodup → fd ∈ l →
      l.foldl scoreStep acc fd.frame_id = some (sumConf fd) := by
  intro l
  induction l with
  | nil => intro acc fd _ h; simp at h
  | cons a l ih =>
    intro acc fd hnd hmem
    simp only [List.map_cons, List.nodup_cons] at hnd
    rcases List.mem_cons.mp hmem with hfa | hfl
    · subst hfa
      rw [List.foldl_cons, scoreFold_absent l _ fd.frame_id hnd.1]
      simp [scoreStep]
    · rw [List.foldl_cons]
      exact ih _ fd hnd.2 hfl

/-- Stability of the descending insertion sort used for frame
selection: for every score value, the run of elements carrying that
score is exactly the corresponding run of the unsorted input, in input
order. -/
theorem filter_score_orderedInsert (q : ℚ) (x : FrameData × ℚ)
    (m : List (FrameData × ℚ)) :
    (m.orderedInsert (fun a b => b.2 ≤ a.2) x).filter (fun p => p.2 = q)
      = (x :: m).filter (fun p => p.2 = q) := by
  rw [List.orderedInsert_eq_take_drop]
  by_cases hx : x.2 = q
  · rw [List.filter_append, List.filter_cons, List.filter_cons]
    have htw : (m.takeWhile fun b => ¬(b.2 ≤ x.2)).filter (fun p => p.2 = q) = [] := by
      rw [List.filter_eq_nil_iff]
      intro b hb
      have hbp := List.mem_takeWhile_imp hb
      simp only [decide_eq_true_eq] at hbp ⊢
      intro hbq
      exact hbp (by rw [hbq, hx])
    rw [htw]
    have hsplit := List.takeWhile_append_dropWhile
      (p := fun b : FrameData × ℚ => decide ¬(b.2 ≤ x.2)) (l := m)
    conv_rhs => rw [← hsplit]
    rw [List.filter_append, htw, List.nil_append]
    simp [hx]
  · rw [List.filter_append, List.filter_cons, List.filter_cons]
    have hsplit := List.takeWhile_append_dropWhile
      (p := fun b : FrameData × ℚ => decide ¬(b.2 ≤ x.2)) (l := m)
    conv_rhs => rw [← hsplit]
    rw [List.filter_append]
    simp [hx]

theorem filter_score_insertionSort (q : ℚ) (l : List (FrameData × ℚ)) :
    (l.insertionSort (fun a b => b.2 ≤ a.2)).filter (fun p => p.2 = q)
      = l.filter (fun p => p.2 = q) := by
  induction l with
  | nil => rfl
  | cons a l ih =>
    have h1 := filter_score_orderedInsert q a
      (l.insertionSort (fun a b => b.2 ≤ a.2))
    calc ((a :: l).insertionSort (fun a b => b.2 ≤ a.2)).filter (fun p => p.2 = q)
        = ((a :: (l.insertionSort (fun a b => b.2 ≤ a.2))).filter (fun p => p.2 = q)) := h1
      _ = (a :: l).filter (fun p => p.2 = q) := by
          rw [List.filter_cons, List.filter_cons, ih]

/-- C8: best-frame selection scores a pulled frame by the sum of
detection confidences its frame_id has in the candidate's own snapshot
(0 when absent), and returns the first `count` frames of the
score-descending stable order: the selection is a prefix of a
permutation of the pulled clip that is sorted by descending score, and
within every equal-score class the buffer order is preserved exactly. -/
theorem claim_C8_best_frame_selection (snapshot clip : List FrameData)
    (count : Nat) :
    (∀ fid : Int, fid ∉ snapshot.map FrameData.frame_id →
        lookupScore snapshot fid = 0)
    ∧ (∀ fd ∈ snapshot, (snapshot.map FrameData.frame_id).Nodup →
        lookupScore snapshot fd.frame_id = sumConf fd)
    ∧ (selectBestFrames snapshot clip count).length = min count clip.length
    ∧ ∃ rest : List FrameData,
        (selectBestFrames snapshot clip count ++ rest).Perm clip
        ∧ (selectBestFrames snapshot clip count ++ rest).Pairwise
            (fun a b => lookupScore snapshot b.frame_id
              ≤ lookupScore snapshot a.frame_id)
        ∧ ∀ q : ℚ,
            (selectBestFrames snapshot clip count ++ rest).filter
                (fun bf => lookupScore snapshot bf.frame_id = q)
              = clip.filter (fun bf => lookupScore snapshot bf.frame_id = q) := by
  have habs : ∀ fid : Int, fid ∉ snapshot.map FrameData.frame_id →
      lookupScore snapshot fid = 0 := by
    intro fid h
    unfold lookupScore frameScores
    rw [scoreFold_absent snapshot _ fid h]
    rfl
  have hmem : ∀ fd ∈ snapshot, (snapshot.map FrameData.frame_id).Nodup →
      lookupScore snapshot fd.frame_id = sumConf fd := by
    intro fd hfd hnd
    unfold lookupScore frameScores
    rw [scoreFold_mem snapshot _ fd hnd hfd]
    rfl
  by_cases hclip : clip = []
  · subst hclip
    refine ⟨habs, hmem, by simp [selectBestFrames], ⟨[], by simp [selectBestFrames], by simp [selectBestFrames], by simp [selectBestFrames]⟩⟩
  · have hne : clip.isEmpty = false := by
      simpa using hclip
    have hsel : selectBestFrames snapshot clip count
        = (((clip.map (fun bf => (bf, lookupScore snapshot bf.frame_id))).insertionSort
            (fun a b => b.2 ≤ a.2)).take count).map Prod.fst := by
      unfold selectBestFrames
      rw [hne]
      rfl
    haveI instTot : IsTotal (FrameData × ℚ) (fun a b => b.2 ≤ a.2) :=
      ⟨fun a b => le_total b.2 a.2⟩
    haveI instTrans : IsTrans (FrameData × ℚ) (fun a b => b.2 ≤ a.2) :=
      ⟨fun _ _ _ hab hbc => le_trans hbc hab⟩
    have hperm := List.perm_insertionSort (fun a b : FrameData × ℚ => b.2 ≤ a.2)
      (clip.map (fun bf => (bf, lookupScore snapshot bf.frame_id)))
    have hsorted := List.sorted_insertionSort (fun a b : FrameData × ℚ => b.2 ≤ a.2)
      (clip.map (fun bf => (bf, lookupScore snapshot bf.frame_id)))
    have hsnd : ∀ p ∈ (clip.map (fun bf => (bf, lookupScore snapshot bf.frame_id))).insertionSort
        (fun a b => b.2 ≤ a.2), p.2 = lookupScore snapshot p.1.frame_id := by
      intro p hp
      have hp2 := hperm.mem_iff.mp hp
      rcases List.mem_map.mp hp2 with ⟨bf, _, hbf⟩
      rw [← hbf]
    refine ⟨habs, hmem, ?_, ?_⟩
    · rw [hsel, List.length_map, List.length_take, hperm.length_eq, List.length_map]
    · refine ⟨(((clip.map (fun bf => (bf, lookupScore snapshot bf.frame_id))).insertionSort
          (fun a b => b.2 ≤ a.2)).drop count).map Prod.fst, ?_, ?_, ?_⟩ <;>
        rw [hsel, ← List.map_append, List.take_append_drop]
      · have h1 := hperm.map Prod.fst
        have h2 : (clip.map (fun bf => (bf, lookupScore snapshot bf.frame_id))).map Prod.fst
            = clip := by
          rw [List.map_map]
          exact List.map_id _
        rw [h2] at h1
        exact h1
      · rw [List.pairwise_map]
        refine List.Pairwise.imp_of_mem ?_ hsorted
        intro a b ha hb hab
        rw [← hsnd a ha, ← hsnd b hb]
        exact hab
      · intro q
        rw [List.filter_map]
        have hcongr : ((clip.map (fun bf => (bf, lookupScore snapshot bf.frame_id))).insertionSort
            (fun a b => b.2 ≤ a.2)).filter
              ((fun bf => decide (lookupScore snapshot bf.frame_id = q)) ∘ Prod.fst)
            = ((clip.map (fun bf => (bf, lookupScore snapshot bf.frame_id))).insertionSort
            (fun a b => b.2 ≤ a.2)).filter (fun p => p.2 = q) := by
          apply List.filter_congr
          intro p hp
          simp only [Function.comp_apply, decide_eq_decide]
          rw [hsnd p hp]
        rw [hcongr, filter_score_insertionSort, List.filter_map]
        rw [List.map_map]
        have h3 : ∀ bf : FrameData,
            ((fun p : FrameData × ℚ => decide (p.2 = q))
              ∘ (fun bf => (bf, lookupScore snapshot bf.frame_id))) bf
            = decide (lookupScore snapshot bf.frame_id = q) := fun bf => rfl
        rw [List.filter_congr (fun bf _ => h3 bf)]
        exact List.map_id _

/-- A unit box with confidence 1/2. -/
def halfBox : BBox :=
  { x1 := 0, y1 := 0, x2 := 1, y2 := 1, confidence := 1/2,
    class_name := "car", class_id := 0 }

/-- A snapshot frame carrying one detection of confidence 1/2. -/
def snapFrame : FrameData :=
  { hasFrame := false, frame_id := 1, timestamp := 0, gps := none,
    detections := [{ bbox := halfBox, frame_id := 1, timestamp := 0, track_id := none }] }

/-- A pulled frame whose id is absent from the snapshot. -/
def strayFrame : FrameData :=
  { hasFrame := false, frame_id := 2, timestamp := 1, gps := none,
    detections := [] }

/-- Concrete instance of C8: an absent frame_id scores 0, a present one
scores its detection-confidence sum, and the selection length is the
expected minimum. -/
theorem claim_C8_witness :
    lookupScore [snapFrame] 99 = 0
    ∧ lookupScore [snapFrame] snapFrame.frame_id = sumConf snapFrame
    ∧ (selectBestFrames [snapFrame] [snapFrame, strayFrame] 1).length
        = min 1 [snapFrame, strayFrame].length :=
  ⟨(claim_C8_best_frame_selection [snapFrame] [snapFrame, strayFrame] 1).1
      99 (by decide),
    (claim_C8_best_frame_selection [snapFrame] [snapFrame, strayFrame] 1).2.1
      snapFrame (List.mem_singleton.mpr rfl) (by decide),
    (claim_C8_best_frame_selection [snapFrame] [snapFrame, strayFrame] 1).2.2.1⟩

/-- Every emitted candidate leaves its type's cooldown stamped with the
frame clock. -/
theorem pf_emission_stamps {A : Type} (e : RuleEngine A) (fd : FrameData)
    (ctx : EngineCtx A) (now : ℚ) :
    ∀ c ∈ (processFrame e fd ctx now).2,
      (processFrame e fd ctx now).1.cooldowns c.violation_type = now := by
  refine processFrame_invariant
    (fun cd _ cands => ∀ c ∈ cands, cd c.violation_type = now)
    e fd ctx now ?_ (by simp)
  intro w st cands hit hP
  rcases processHit_cases ctx fd now w (e.ruleConfigs w) e.max_reports_per_hour
      st cands hit with
    ⟨hcd, hcn, _⟩ | ⟨_, _, hcd, _, cand, hcv, hcn⟩
  · rw [hcd, hcn]; exact hP
  · rw [hcd, hcn]
    intro c hc
    rcases List.mem_append.mp hc with hc | hc
    · by_cases hcw : c.violation_type = w
      · simp [hcw]
      · simp only [if_neg hcw]; exact hP c hc
    · have hcc : c = cand := by simpa using hc
      subst hcc
      simp [hcv]

/-- A type still inside its cooldown window is fully suppressed and its
stamp is untouched. -/
theorem pf_cooldown_block {A : Type} (e : RuleEngine A) (fd : FrameData)
    (ctx : EngineCtx A) (now : ℚ) (v : String)
    (hv : now - e.cooldowns v < (e.ruleConfigs v).cooldown_seconds) :
    (∀ c ∈ (processFrame e fd ctx now).2, c.violation_type ≠ v)
    ∧ (processFrame e fd ctx now).1.cooldowns v = e.cooldowns v := by
  have h := processFrame_invariant
    (fun cd _ cands => cd v = e.cooldowns v ∧ ∀ c ∈ cands, c.violation_type ≠ v)
    e fd ctx now ?_ (by simp)
  · exact ⟨h.2, h.1⟩
  intro w st cands hit hP
  rcases processHit_cases ctx fd now w (e.ruleConfigs w) e.max_reports_per_hour
      st cands hit with
    ⟨hcd, hcn, _⟩ | ⟨hpass, _, hcd, _, cand, hcv, hcn⟩
  · rw [hcd, hcn]; exact hP
  · by_cases hw : w = v
    · subst hw
      rw [hP.1] at hpass
      linarith
    · rw [hcd, hcn]
      have hvw : ¬v = w := fun h => hw h.symm
      refine ⟨by simp [hvw, hP.1], ?_⟩
      intro c hc
      rcases List.mem_append.mp hc with hc | hc
      · exact hP.2 c hc
      · have hcc : c = cand := by simpa using hc
        subst hcc
        rw [hcv]
        exact hw

/-- With the trailing-hour window already full, nothing at all is
emitted. -/
theorem pf_rate_block {A : Type} (e : RuleEngine A) (fd : FrameData)
    (ctx : EngineCtx A) (now : ℚ)
    (hr : e.max_reports_per_hour
      ≤ (e.report_times.filter (fun ts => now - ts < 3600)).length) :
    (processFrame e fd ctx now).2 = [] := by
  have h := processFrame_invariant
    (fun _ rt cands =>
      e.max_reports_per_hour ≤ (rt.filter (fun ts => now - ts < 3600)).length
      ∧ cands = [])
    e fd ctx now ?_ ⟨hr, rfl⟩
  · exact h.2
  intro w st cands hit hP
  rcases processHit_cases ctx fd now w (e.ruleConfigs w) e.max_reports_per_hour
      st cands hit with
    ⟨_, hcn, hrt | hrt⟩ | ⟨_, hlt, _, _, _, _, _⟩
  · rw [hcn, hrt]; exact hP
  · rw [hcn, hrt, filter_filter_self]; exact hP
  · exact absurd hP.1 (by omega)

/-- A frame that emitted nothing recorded nothing: the cooldown map is
untouched and the report window only ever shrank by pruning. -/
theorem pf_silent_no_bookkeeping {A : Type} (e : RuleEngine A) (fd : FrameData)
    (ctx : EngineCtx A) (now : ℚ)
    (hout : (processFrame e fd ctx now).2 = []) :
    (processFrame e fd ctx now).1.cooldowns = e.cooldowns
    ∧ List.Sublist (processFrame e fd ctx now).1.report_times e.report_times := by
  have h := processFrame_invariant
    (fun cd rt cands =>
      (cd = e.cooldowns ∧ List.Sublist rt e.report_times) ∨ cands ≠ [])
    e fd ctx now ?_ (Or.inl ⟨rfl, List.Sublist.refl _⟩)
  · rcases h with h | h
    · exact h
    · exact absurd hout h
  intro w st cands hit hP
  rcases processHit_cases ctx fd now w (e.ruleConfigs w) e.max_reports_per_hour
      st cands hit with
    ⟨hcd, hcn, hrt | hrt⟩ | ⟨_, _, _, _, cand, _, hcn⟩
  · rw [hcd, hcn, hrt]; exact hP
  · rcases hP with hP | hP
    · exact Or.inl ⟨by rw [hcd]; exact hP.1,
        by rw [hrt]; exact (List.filter_sublist _).trans hP.2⟩
    · exact Or.inr (by rw [hcn]; exact hP)
  · exact Or.inr (by rw [hcn]; simp)

/-- C5: an emission stamps its type's cooldown with the frame clock; a
type whose cooldown window has not elapsed is suppressed (so two
confirmable violations of one type inside the window yield only the
first, as the final conjunct states across two frames); a full
trailing-hour window suppresses every candidate of every type; and a
suppressed candidate is lost — a frame that emitted nothing left the
cooldown map untouched and only ever pruned the report window, queuing
nothing for later. -/
theorem claim_C5_cooldown_rate_limit {A : Type} (e : RuleEngine A)
    (fd : FrameData) (ctx : EngineCtx A) (now : ℚ) :
    (∀ c ∈ (processFrame e fd ctx now).2,
        (processFrame e fd ctx now).1.cooldowns c.violation_type = now)
    ∧ (∀ v : String,
        now - e.cooldowns v < (e.ruleConfigs v).cooldown_seconds →
        (∀ c ∈ (processFrame e fd ctx now).2, c.violation_type ≠ v)
        ∧ (processFrame e fd ctx now).1.cooldowns v = e.cooldowns v)
    ∧ (e.max_reports_per_hour
        ≤ (e.report_times.filter (fun ts => now - ts < 3600)).length →
        (processFrame e fd ctx now).2 = [])
    ∧ ((processFrame e fd ctx now).2 = [] →
        (processFrame e fd ctx now).1.cooldowns = e.cooldowns
        ∧ List.Sublist (processFrame e fd ctx now).1.report_times e.report_times)
    ∧ (∀ (fd' : FrameData) (ctx' : EngineCtx A) (now' : ℚ) (c : Candidate),
        c ∈ (processFrame e fd ctx now).2 →
        now' - now < (e.ruleConfigs c.violation_type).cooldown_seconds →
        ∀ c' ∈ (processFrame (processFrame e fd ctx now).1 fd' ctx' now').2,
          c'.violation_type ≠ c.violation_type) := by
  refine ⟨pf_emission_stamps e fd ctx now,
    fun v hv => pf_cooldown_block e fd ctx now v hv,
    fun hr => pf_rate_block e fd ctx now hr,
    fun hout => pf_silent_no_bookkeeping e fd ctx now hout, ?_⟩
  intro fd' ctx' now' c hc hlt c' hc'
  have hstamp := pf_emission_stamps e fd ctx now c hc
  have hcfg := (processFrame_config e fd ctx now).1
  refine (pf_cooldown_block (processFrame e fd ctx now).1 fd' ctx' now'
    c.violation_type ?_).1 c' hc'
  rw [hstamp, hcfg]
  exact hlt

/-- Concrete instance of C5: with the rate window already at its
maximum of zero, a frame emits nothing. -/
theorem claim_C5_witness :
    (processFrame
      { rules := [], ruleConfigs := fun _ => defaultRuleConfig,
        speed_gate_kmh := 5, max_reports_per_hour := 0,
        temporal := initTemporal, cooldowns := fun _ => 0,
        report_times := [] } frameW ⟨none, ()⟩ 0).2 = [] :=
  (claim_C5_cooldown_rate_limit
    { rules := [], ruleConfigs := fun _ => defaultRuleConfig,
      speed_gate_kmh := 5, max_reports_per_hour := 0,
      temporal := initTemporal, cooldowns := fun _ => 0,
      report_times := [] } frameW ⟨none, ()⟩ 0).2.2.1 (by simp)

theorem find?_eq_of_map_nodup {α β : Type} [DecidableEq β] (f : α → β)
    (l : List α) (p : α) (hnd : (l.map f).Nodup) (hp : p ∈ l) :
    l.find? (fun x => f x = f p) = some p := by
  induction l with
  | nil => simp at hp
  | cons a l ih =>
    simp only [List.map_cons, List.nodup_cons] at hnd
    by_cases ha : f a = f p
    · rw [List.find?_cons_of_pos _ (by simpa using ha)]
      rcases List.mem_cons.mp hp with h | h
      · rw [h]
      · exact absurd (ha ▸ List.mem_map_of_mem f h) hnd.1
    · rw [List.find?_cons_of_neg _ (by simpa using ha)]
      rcases List.mem_cons.mp hp with h | h
      · exact absurd (congrArg f h.symm) ha
      · exact ih hnd.2 h

theorem greedyAssign_acc_mem :
    ∀ (l : List (Nat × Nat × ℚ)) (mT mD : List Nat) (acc : List (Nat × Nat)),
      ∀ q ∈ acc, q ∈ greedyAssign l mT mD acc := by
  intro l
  induction l with
  | nil => intro mT mD acc q hq; exact hq
  | cons x l ih =>
    intro mT mD acc q hq
    rcases x with ⟨ti, di, iou⟩
    unfold greedyAssign
    split_ifs with h
    · exact ih mT mD acc q hq
    · exact ih (ti :: mT) (di :: mD) (acc ++ [(ti, di)]) q (List.mem_append_left _ hq)

theorem greedyAssign_mem_src :
    ∀ (l : List (Nat × Nat × ℚ)) (mT mD : List Nat) (acc : List (Nat × Nat)),
      ∀ q ∈ greedyAssign l mT mD acc,
        q ∈ acc ∨ ∃ r ∈ l, r.1 = q.1 ∧ r.2.1 = q.2 := by
  intro l
  induction l with
  | nil => intro mT mD acc q hq; exact Or.inl hq
  | cons x l ih =>
    intro mT mD acc q hq
    rcases x with ⟨ti, di, iou⟩
    rw [greedyAssign] at hq
    split_ifs at hq with h
    · rcases ih mT mD acc q hq with h1 | ⟨r, hr, hre⟩
      · exact Or.inl h1
      · exact Or.inr ⟨r, List.mem_cons_of_mem _ hr, hre⟩
    · rcases ih (ti :: mT) (di :: mD) (acc ++ [(ti, di)]) q hq with h1 | ⟨r, hr, hre⟩
      · rcases List.mem_append.mp h1 with h2 | h2
        · exact Or.inl h2
        · have : q = (ti, di) := by simpa using h2
          exact Or.inr ⟨(ti, di, iou), List.mem_cons_self _ _, by simp [this]⟩
      · exact Or.inr ⟨r, List.mem_cons_of_mem _ hr, hre⟩

theorem greedyAssign_nodup :
    ∀ (l : List (Nat × Nat × ℚ)) (mT mD : List Nat) (acc : List (Nat × Nat)),
      (∀ q ∈ acc, q.1 ∈ mT) → (∀ q ∈ acc, q.2 ∈ mD) →
      (acc.map Prod.fst).Nodup → (acc.map Prod.snd).Nodup →
      ((greedyAssign l mT mD acc).map Prod.fst).Nodup
        ∧ ((greedyAssign l mT mD acc).map Prod.snd).Nodup := by
  intro l
  induction l with
  | nil => intro mT mD acc _ _ h1 h2; exact ⟨h1, h2⟩
  | cons x l ih =>
    intro mT mD acc hT hD h1 h2
    rcases x with ⟨ti, di, iou⟩
    rw [greedyAssign]
    split_ifs with h
    · exact ih mT mD acc hT hD h1 h2
    · push_neg at h
      refine ih (ti :: mT) (di :: mD) (acc ++ [(ti, di)]) ?_ ?_ ?_ ?_
      · intro q hq
        rcases List.mem_append.mp hq with hq | hq
        · exact List.mem_cons_of_mem _ (hT q hq)
        · have : q = (ti, di) := by simpa using hq
          rw [this]
          exact List.mem_cons_self _ _
      · intro q hq
        rcases List.mem_append.mp hq with hq | hq
        · exact List.mem_cons_of_mem _ (hD q hq)
        · have : q = (ti, di) := by simpa using hq
          rw [this]
          exact List.mem_cons_self _ _
      · rw [List.map_append, List.nodup_append]
        refine ⟨h1, by simp, ?_⟩
        intro a ha hb
        have : a = ti := by simpa using hb
        subst this
        rcases List.mem_map.mp ha with ⟨q, hq, hqa⟩
        exact h.1 (hqa ▸ hT q hq)
      · rw [List.map_append, List.nodup_append]
        refine ⟨h2, by simp, ?_⟩
        intro a ha hb
        have : a = di := by simpa using hb
        subst this
        rcases List.mem_map.mp ha with ⟨q, hq, hqa⟩
        exact h.2 (hqa ▸ hD q hq)

theorem greedyAssign_unique_accept :
    ∀ (l : List (Nat × Nat × ℚ)) (mT mD : List Nat) (acc : List (Nat × Nat))
      (x : Nat × Nat × ℚ), x ∈ l →
      (∀ y ∈ l, (y.1 = x.1 ∨ y.2.1 = x.2.1) → y = x) →
      x.1 ∉ mT → x.2.1 ∉ mD →
      (x.1, x.2.1) ∈ greedyAssign l mT mD acc := by
  intro l
  induction l with
  | nil => intro mT mD acc x hx; simp at hx
  | cons y l ih =>
    intro mT mD acc x hx huniq hxT hxD
    rcases y with ⟨ti, di, iou⟩
    rw [greedyAssign]
    by_cases hyx : (ti, di, iou) = x
    · have h1 : ti = x.1 := by rw [← hyx]
      have h2 : di = x.2.1 := by rw [← hyx]
      rw [if_neg (by rw [h1, h2]; push_neg; exact ⟨hxT, hxD⟩)]
      refine greedyAssign_acc_mem l _ _ _ (x.1, x.2.1) ?_
      exact List.mem_append_right _ (by rw [h1, h2]; simp)
    · have hsep : ti ≠ x.1 ∧ di ≠ x.2.1 := by
        have := mt (huniq (ti, di, iou) (List.mem_cons_self _ _)) hyx
        push_neg at this
        exact this
      have hxl : x ∈ l := by
        rcases List.mem_cons.mp hx with hxy2 | hxl
        · exact absurd hxy2.symm hyx
        · exact hxl
      have huniq' : ∀ y ∈ l, (y.1 = x.1 ∨ y.2.1 = x.2.1) → y = x :=
        fun y hy => huniq y (List.mem_cons_of_mem _ hy)
      split_ifs with h
      · exact ih mT mD acc x hxl huniq' hxT hxD
      · refine ih (ti :: mT) (di :: mD) _ x hxl huniq' ?_ ?_
        · intro hc
          rcases List.mem_cons.mp hc with hc | hc
          · exact hsep.1 hc.symm
          · exact hxT hc
        · intro hc
          rcases List.mem_cons.mp hc with hc | hc
          · exact hsep.2 hc.symm
          · exact hxD hc

/-- The IoU between the detection at index di and the track at index ti. -/
def iouAt (t : IOUTracker) (dets : List Detection) (di ti : Nat) : ℚ :=
  (getDet dets di).bbox.iou ((t.tracks.getD ti dummyTrack).bbox)

theorem candidateTriples_mem_elim (t : IOUTracker) (dets : List Detection)
    (r : Nat × Nat × ℚ) (hr : r ∈ candidateTriples t dets) :
    r.1 < t.tracks.length ∧ r.2.1 < dets.length
      ∧ t.iou_threshold ≤ r.2.2 ∧ r.2.2 = iouAt t dets r.2.1 r.1 := by
  unfold candidateTriples at hr
  rcases List.mem_flatMap.mp hr with ⟨dp, hdp, hr2⟩
  rcases List.mem_filterMap.mp hr2 with ⟨tp, htp, hsome⟩
  split_ifs at hsome with hiou
  cases hsome
  have hdp2 := List.mem_enum_iff_getElem?.mp hdp
  have htp2 := List.mem_enum_iff_getElem?.mp htp
  rcases List.getElem?_eq_some.mp hdp2 with ⟨hdlt, hdeq⟩
  rcases List.getElem?_eq_some.mp htp2 with ⟨htlt, hteq⟩
  refine ⟨htlt, hdlt, hiou, ?_⟩
  unfold iouAt getDet
  simp only [List.getD_eq_getElem _ _ hdlt, List.getD_eq_getElem _ _ htlt,
    hdeq, hteq]

theorem candidateTriples_mem_intro (t : IOUTracker) (dets : List Detection)
    (di ti : Nat) (hdi : di < dets.length) (hti : ti < t.tracks.length)
    (hiou : t.iou_threshold ≤ iouAt t dets di ti) :
    (ti, di, iouAt t dets di ti) ∈ candidateTriples t dets := by
  unfold candidateTriples
  rw [List.mem_flatMap]
  refine ⟨(di, dets[di]), ?_, ?_⟩
  · rw [List.mem_enum_iff_getElem?]
    simp [List.getElem?_eq_getElem hdi]
  · rw [List.mem_filterMap]
    refine ⟨(ti, t.tracks[ti]), ?_, ?_⟩
    · rw [List.mem_enum_iff_getElem?]
      simp [List.getElem?_eq_getElem hti]
    · have hval : dets[di].bbox.iou (t.tracks[ti]).bbox = iouAt t dets di ti := by
        unfold iouAt getDet
        rw [List.getD_eq_getElem _ _ hdi, List.getD_eq_getElem _ _ hti]
      rw [if_pos (by rw [hval]; exact hiou), hval]

theorem matchedPairs_mem_elim (t : IOUTracker) (dets : List Detection)
    (q : Nat × Nat) (hq : q ∈ matchedPairs t dets) :
    q.1 < t.tracks.length ∧ q.2 < dets.length
      ∧ t.iou_threshold ≤ iouAt t dets q.2 q.1 := by
  unfold matchedPairs at hq
  rcases greedyAssign_mem_src _ _ _ _ q hq with h | ⟨r, hr, hr1, hr2⟩
  · simp at h
  · have hr3 : r ∈ candidateTriples t dets :=
      (List.perm_insertionSort _ _).mem_iff.mp hr
    have h4 := candidateTriples_mem_elim t dets r hr3
    refine ⟨hr1 ▸ h4.1, hr2 ▸ h4.2.1, ?_⟩
    have h5 := h4.2.2.2 ▸ h4.2.2.1
    rw [hr1, hr2] at h5
    exact h5

theorem matchedPairs_nodup (t : IOUTracker) (dets : List Detection) :
    ((matchedPairs t dets).map Prod.fst).Nodup
      ∧ ((matchedPairs t dets).map Prod.snd).Nodup := by
  unfold matchedPairs
  exact greedyAssign_nodup _ [] [] [] (by simp) (by simp) (by simp) (by simp)

theorem matchedPairs_unique_accept (t : IOUTracker) (dets : List Detection)
    (di ti : Nat) (hdi : di < dets.length) (hti : ti < t.tracks.length)
    (h1 : t.iou_threshold ≤ iouAt t dets di ti)
    (h2 : ∀ ti' < t.tracks.length, ti' ≠ ti → iouAt t dets di ti' < t.iou_threshold)
    (h3 : ∀ di' < dets.length, di' ≠ di → iouAt t dets di' ti < t.iou_threshold) :
    (ti, di) ∈ matchedPairs t dets := by
  unfold matchedPairs
  have hx : (ti, di, iouAt t dets di ti)
      ∈ (candidateTriples t dets).insertionSort (fun a b => b.2.2 ≤ a.2.2) :=
    (List.perm_insertionSort _ _).mem_iff.mpr
      (candidateTriples_mem_intro t dets di ti hdi hti h1)
  have huniq : ∀ y ∈ (candidateTriples t dets).insertionSort
      (fun a b => b.2.2 ≤ a.2.2),
      (y.1 = ti ∨ y.2.1 = di) → y = (ti, di, iouAt t dets di ti) := by
    intro y hy hcase
    have hy2 : y ∈ candidateTriples t dets :=
      (List.perm_insertionSort _ _).mem_iff.mp hy
    have h4 := candidateTriples_mem_elim t dets y hy2
    have hy1 : y.1 = ti ∧ y.2.1 = di := by
      rcases hcase with hcase | hcase
      · refine ⟨hcase, ?_⟩
        by_contra hne
        exact absurd (hcase ▸ h4.2.2.2 ▸ h4.2.2.1)
          (not_le.mpr (h3 y.2.1 h4.2.1 hne))
      · refine ⟨?_, hcase⟩
        by_contra hne
        exact absurd (hcase ▸ h4.2.2.2 ▸ h4.2.2.1)
          (not_le.mpr (h2 y.1 h4.1 hne))
    have hsplit : y = (y.1, y.2.1, y.2.2) := rfl
    rw [hsplit, hy1.1, hy1.2]
    have h6 := h4.2.2.2
    rw [hy1.1, hy1.2] at h6
    rw [h6]
  exact greedyAssign_unique_accept _ [] [] [] _ hx huniq (by simp) (by simp)

theorem assignPass_length (matched : List (Nat × Nat)) (tk : List Track) :
    ∀ (dets : List Detection) (di : Nat) (nid : Int),
      (assignPass matched tk dets di nid).1.length = dets.length := by
  intro dets
  induction dets with
  | nil => intro di nid; rfl
  | cons det rest ih =>
    intro di nid
    cases hf : matched.find? (fun q => q.2 = di) with
    | some p => simp [assignPass, hf, ih]
    | none => simp [assignPass, hf, ih]

theorem assignPass_all_some (matched : List (Nat × Nat)) (tk : List Track) :
    ∀ (dets : List Detection) (di : Nat) (nid : Int),
      ∀ d ∈ (assignPass matched tk dets di nid).1, d.track_id.isSome := by
  intro dets
  induction dets with
  | nil => intro di nid d hd; simp [assignPass] at hd
  | cons det rest ih =>
    intro di nid d hd
    cases hf : matched.find? (fun q => q.2 = di) with
    | some p =>
      simp only [assignPass, hf] at hd
      rcases List.mem_cons.mp hd with h | h
      · rw [h]; rfl
      · exact ih (di + 1) nid d h
    | none =>
      simp only [assignPass, hf] at hd
      rcases List.mem_cons.mp hd with h | h
      · rw [h]; rfl
      · exact ih (di + 1) (nid + 1) d h

theorem assignPass_nid_le (matched : List (Nat × Nat)) (tk : List Track) :
    ∀ (dets : List Detection) (di : Nat) (nid : Int),
      nid ≤ (assignPass matched tk dets di nid).2.2 := by
  intro dets
  induction dets with
  | nil => intro di nid; exact le_refl nid
  | cons det rest ih =>
    intro di nid
    cases hf : matched.find? (fun q => q.2 = di) with
    | some p => simpa [assignPass, hf] using ih (di + 1) nid
    | none =>
      have h1 := ih (di + 1) (nid + 1)
      simp only [assignPass, hf]
      omega

theorem assignPass_getD_matched (matched : List (Nat × Nat)) (tk : List Track) :
    ∀ (dets : List Detection) (di : Nat) (nid : Int) (k : Nat) (p : Nat × Nat),
      k < dets.length → matched.find? (fun q => q.2 = di + k) = some p →
      (((assignPass matched tk dets di nid).1.getD k dummyDet).track_id
        = some (trackIdAt tk p.1)) := by
  intro dets
  induction dets with
  | nil => intro di nid k p hk; simp at hk
  | cons det rest ih =>
    intro di nid k p hk hf
    cases k with
    | zero =>
      rw [Nat.add_zero] at hf
      simp [assignPass, hf]
    | succ k' =>
      have hf' : matched.find? (fun q => q.2 = (di + 1) + k') = some p := by
        have : (di + 1) + k' = di + (k' + 1) := by omega
        rw [this]
        exact hf
      have hk' : k' < rest.length := by simpa using hk
      cases hf0 : matched.find? (fun q => q.2 = di) with
      | some p0 =>
        simp only [assignPass, hf0, List.getD_cons_succ]
        exact ih (di + 1) nid k' p hk' hf'
      | none =>
        simp only [assignPass, hf0, List.getD_cons_succ]
        exact ih (di + 1) (nid + 1) k' p hk' hf'

theorem assignPass_getD_unmatched (matched : List (Nat × Nat)) (tk : List Track) :
    ∀ (dets : List Detection) (di : Nat) (nid : Int) (k : Nat),
      k < dets.length → matched.find? (fun q => q.2 = di + k) = none →
      ∃ v : Int, (((assignPass matched tk dets di nid).1.getD k dummyDet).track_id
          = some v)
        ∧ nid ≤ v ∧ v < (assignPass matched tk dets di nid).2.2 := by
  intro dets
  induction dets with
  | nil => intro di nid k hk; simp at hk
  | cons det rest ih =>
    intro di nid k hk hf
    cases k with
    | zero =>
      rw [Nat.add_zero] at hf
      refine ⟨nid, by simp [assignPass, hf], le_refl nid, ?_⟩
      have h1 := assignPass_nid_le matched tk rest (di + 1) (nid + 1)
      simp only [assignPass, hf]
      omega
    | succ k' =>
      have hf' : matched.find? (fun q => q.2 = (di + 1) + k') = none := by
        have : (di + 1) + k' = di + (k' + 1) := by omega
        rw [this]
        exact hf
      have hk' : k' < rest.length := by simpa using hk
      cases hf0 : matched.find? (fun q => q.2 = di) with
      | some p0 =>
        rcases ih (di + 1) nid k' hk' hf' with ⟨v, hv1, hv2, hv3⟩
        exact ⟨v, by simpa [assignPass, hf0, List.getD_cons_succ] using hv1,
          hv2, by simpa [assignPass, hf0] using hv3⟩
      | none =>
        rcases ih (di + 1) (nid + 1) k' hk' hf' with ⟨v, hv1, hv2, hv3⟩
        exact ⟨v, by simpa [assignPass, hf0, List.getD_cons_succ] using hv1,
          by omega, by simpa [assignPass, hf0] using hv3⟩

theorem assignPass_id_bound (matched : List (Nat × Nat)) (tk : List Track) :
    ∀ (dets : List Detection) (di : Nat) (nid : Int),
      (∀ p ∈ matched, trackIdAt tk p.1 < nid) →
      ∀ d ∈ (assignPass matched tk dets di nid).1,
        ∃ v : Int, d.track_id = some v
          ∧ v < (assignPass matched tk dets di nid).2.2
          ∧ ((∃ q ∈ matched, di ≤ q.2 ∧ v = trackIdAt tk q.1) ∨ nid ≤ v) := by
  intro dets
  induction dets with
  | nil => intro di nid _ d hd; simp [assignPass] at hd
  | cons det rest ih =>
    intro di nid hb d hd
    cases hf : matched.find? (fun q => q.2 = di) with
    | some p =>
      have hpm : p ∈ matched := List.mem_of_find?_eq_some hf
      have hpdi : p.2 = di := by simpa using List.find?_some hf
      simp only [assignPass, hf] at hd ⊢
      rcases List.mem_cons.mp hd with h | h
      · refine ⟨trackIdAt tk p.1, by rw [h], ?_, Or.inl ⟨p, hpm, le_of_eq hpdi.symm, rfl⟩⟩
        have := assignPass_nid_le matched tk rest (di + 1) nid
        have := hb p hpm
        omega
      · rcases ih (di + 1) nid hb d h with ⟨v, hv1, hv2, hv3⟩
        refine ⟨v, hv1, hv2, ?_⟩
        rcases hv3 with ⟨q, hq1, hq2, hq3⟩ | hv3
        · exact Or.inl ⟨q, hq1, by omega, hq3⟩
        · exact Or.inr hv3
    | none =>
      simp only [assignPass, hf] at hd ⊢
      rcases List.mem_cons.mp hd with h | h
      · refine ⟨nid, by rw [h], ?_, Or.inr (le_refl nid)⟩
        have := assignPass_nid_le matched tk rest (di + 1) (nid + 1)
        omega
      · have hb' : ∀ p ∈ matched, trackIdAt tk p.1 < nid + 1 :=
          fun p hp => lt_trans (hb p hp) (by omega)
        rcases ih (di + 1) (nid + 1) hb' d h with ⟨v, hv1, hv2, hv3⟩
        refine ⟨v, hv1, hv2, ?_⟩
        rcases hv3 with ⟨q, hq1, hq2, hq3⟩ | hv3
        · exact Or.inl ⟨q, hq1, by omega, hq3⟩
        · exact Or.inr (by omega)

theorem assignPass_newTracks_mem (matched : List (Nat × Nat)) (tk : List Track) :
    ∀ (dets : List Detection) (di : Nat) (nid : Int),
      ∀ tr ∈ (assignPass matched tk dets di nid).2.1,
        nid ≤ tr.track_id ∧ tr.track_id < (assignPass matched tk dets di nid).2.2
          ∧ tr.missing_frames = 0 ∧ tr.age = 0 ∧ tr.total_visible = 1 := by
  intro dets
  induction dets with
  | nil => intro di nid tr htr; simp [assignPass] at htr
  | cons det rest ih =>
    intro di nid tr htr
    cases hf : matched.find? (fun q => q.2 = di) with
    | some p =>
      simp only [assignPass, hf] at htr ⊢
      exact ih (di + 1) nid tr htr
    | none =>
      simp only [assignPass, hf] at htr ⊢
      rcases List.mem_cons.mp htr with h | h
      · subst h
        refine ⟨le_refl nid, ?_, rfl, rfl, rfl⟩
        have := assignPass_nid_le matched tk rest (di + 1) (nid + 1)
        simp only
        omega
      · rcases ih (di + 1) (nid + 1) tr h with ⟨h1, h2, h3⟩
        exact ⟨by omega, h2, h3⟩

theorem assignPass_newTracks_sorted (matched : List (Nat × Nat)) (tk : List Track) :
    ∀ (dets : List Detection) (di : Nat) (nid : Int),
      ((assignPass matched tk dets di nid).2.1.map Track.track_id).Pairwise
        (fun a b => a < b) := by
  intro dets
  induction dets with
  | nil => intro di nid; simp [assignPass]
  | cons det rest ih =>
    intro di nid
    cases hf : matched.find? (fun q => q.2 = di) with
    | some p => simpa only [assignPass, hf] using ih (di + 1) nid
    | none =>
      simp only [assignPass, hf, List.map_cons, List.pairwise_cons]
      refine ⟨?_, ih (di + 1) (nid + 1)⟩
      intro v hv
      rcases List.mem_map.mp hv with ⟨tr, htr, htrv⟩
      have := (assignPass_newTracks_mem matched tk rest (di + 1) (nid + 1) tr htr).1
      omega

theorem assignPass_ids_nodup (matched : List (Nat × Nat)) (tk : List Track)
    (hinj : ∀ p p', p ∈ matched → p' ∈ matched → p.2 ≠ p'.2 →
      trackIdAt tk p.1 ≠ trackIdAt tk p'.1) :
    ∀ (dets : List Detection) (di : Nat) (nid : Int),
      (∀ p ∈ matched, trackIdAt tk p.1 < nid) →
      ((assignPass matched tk dets di nid).1.filterMap Detection.track_id).Nodup := by
  intro dets
  induction dets with
  | nil => intro di nid _; simp [assignPass]
  | cons det rest ih =>
    intro di nid hb
    cases hf : matched.find? (fun q => q.2 = di) with
    | some p =>
      have hpm : p ∈ matched := List.mem_of_find?_eq_some hf
      have hpdi : p.2 = di := by simpa using List.find?_some hf
      simp only [assignPass, hf, List.filterMap_cons]
      rw [List.nodup_cons]
      refine ⟨?_, ih (di + 1) nid hb⟩
      intro hmem
      rcases List.mem_filterMap.mp hmem with ⟨d, hd, hdv⟩
      rcases assignPass_id_bound matched tk rest (di + 1) nid hb d hd with
        ⟨v, hv1, _, hv3⟩
      rw [hv1] at hdv
      cases hdv
      rcases hv3 with ⟨q, hq1, hq2, hq3⟩ | hv3
      · exact hinj p q hpm hq1 (by omega) hq3
      · have := hb p hpm
        omega
    | none =>
      simp only [assignPass, hf, List.filterMap_cons]
      rw [List.nodup_cons]
      have hb' : ∀ p ∈ matched, trackIdAt tk p.1 < nid + 1 :=
        fun p hp => lt_trans (hb p hp) (by omega)
      refine ⟨?_, ih (di + 1) (nid + 1) hb'⟩
      intro hmem
      rcases List.mem_filterMap.mp hmem with ⟨d, hd, hdv⟩
      rcases assignPass_id_bound matched tk rest (di + 1) (nid + 1) hb' d hd with
        ⟨v, hv1, _, hv3⟩
      rw [hv1] at hdv
      cases hdv
      rcases hv3 with ⟨q, hq1, _, hq3⟩ | hv3
      · have := hb q hq1
        omega
      · omega

theorem refreshTracks_length (m : List (Nat × Nat)) (dets : List Detection) :
    ∀ (l : List Track) (ti : Nat), (refreshTracks m dets l ti).length = l.length := by
  intro l
  induction l with
  | nil => intro ti; rfl
  | cons tr rest ih => intro ti; simp [refreshTracks, ih]

theorem refreshTracks_map_id (m : List (Nat × Nat)) (dets : List Detection) :
    ∀ (l : List Track) (ti : Nat),
      (refreshTracks m dets l ti).map Track.track_id = l.map Track.track_id := by
  intro l
  induction l with
  | nil => intro ti; rfl
  | cons tr rest ih =>
    intro ti
    simp only [refreshTracks, List.map_cons, ih]
    cases hf : m.find? (fun p => p.1 = ti) <;> simp [hf]

theorem refreshTracks_getD_matched (m : List (Nat × Nat)) (dets : List Detection) :
    ∀ (l : List Track) (ti : Nat) (k : Nat) (p : Nat × Nat),
      k < l.length → m.find? (fun q => q.1 = ti + k) = some p →
      ((refreshTracks m dets l ti).getD k dummyTrack).track_id
          = (l.getD k dummyTrack).track_id
        ∧ ((refreshTracks m dets l ti).getD k dummyTrack).missing_frames = 0 := by
  intro l
  induction l with
  | nil => intro ti k p hk; simp at hk
  | cons tr rest ih =>
    intro ti k p hk hf
    cases k with
    | zero =>
      rw [Nat.add_zero] at hf
      simp [refreshTracks, hf]
    | succ k' =>
      have hf' : m.find? (fun q => q.1 = (ti + 1) + k') = some p := by
        have : (ti + 1) + k' = ti + (k' + 1) := by omega
        rw [this]; exact hf
      have hk' : k' < rest.length := by simpa using hk
      have := ih (ti + 1) k' p hk' hf'
      cases hf0 : m.find? (fun q => q.1 = ti) <;>
        simpa [refreshTracks, hf0, List.getD_cons_succ] using this

theorem refreshTracks_mem (m : List (Nat × Nat)) (dets : List Detection) :
    ∀ (l : List Track) (ti : Nat), ∀ tr' ∈ refreshTracks m dets l ti,
      ∃ tr0 ∈ l, tr'.track_id = tr0.track_id := by
  intro l
  induction l with
  | nil => intro ti tr' h; simp [refreshTracks] at h
  | cons tr rest ih =>
    intro ti tr' h
    rw [refreshTracks] at h
    rcases List.mem_cons.mp h with h | h
    · refine ⟨tr, List.mem_cons_self _ _, ?_⟩
      rw [h]
      cases hf : m.find? (fun p => p.1 = ti) <;> simp [hf]
    · rcases ih (ti + 1) tr' h with ⟨tr0, h0, he⟩
      exact ⟨tr0, List.mem_cons_of_mem _ h0, he⟩

theorem bumpMissing_length (mt : List Nat) :
    ∀ (l : List Track) (ti : Nat), (bumpMissing mt l ti).length = l.length := by
  intro l
  induction l with
  | nil => intro ti; rfl
  | cons tr rest ih => intro ti; simp [bumpMissing, ih]

theorem bumpMissing_map_id (mt : List Nat) :
    ∀ (l : List Track) (ti : Nat),
      (bumpMissing mt l ti).map Track.track_id = l.map Track.track_id := by
  intro l
  induction l with
  | nil => intro ti; rfl
  | cons tr rest ih =>
    intro ti
    simp only [bumpMissing, List.map_cons, ih]
    split_ifs <;> simp

theorem bumpMissing_getD_kept (mt : List Nat) :
    ∀ (l : List Track) (ti : Nat) (k : Nat), k < l.length → (ti + k) ∈ mt →
      (bumpMissing mt l ti).getD k dummyTrack = l.getD k dummyTrack := by
  intro l
  induction l with
  | nil => intro ti k hk; simp at hk
  | cons tr rest ih =>
    intro ti k hk hmem
    cases k with
    | zero =>
      rw [Nat.add_zero] at hmem
      simp [bumpMissing, hmem]
    | succ k' =>
      have hmem' : (ti + 1) + k' ∈ mt := by
        have : (ti + 1) + k' = ti + (k' + 1) := by omega
        rw [this]; exact hmem
      have hk' : k' < rest.length := by simpa using hk
      simp only [bumpMissing, List.getD_cons_succ]
      exact ih (ti + 1) k' hk' hmem'

theorem bumpMissing_mem (mt : List Nat) :
    ∀ (l : List Track) (ti : Nat), ∀ tr' ∈ bumpMissing mt l ti,
      ∃ tr0 ∈ l, tr'.track_id = tr0.track_id
        ∧ (tr'.missing_frames = tr0.missing_frames
            ∨ tr'.missing_frames = tr0.missing_frames + 1) := by
  intro l
  induction l with
  | nil => intro ti tr' h; simp [bumpMissing] at h
  | cons tr rest ih =>
    intro ti tr' h
    rw [bumpMissing] at h
    rcases List.mem_cons.mp h with h | h
    · refine ⟨tr, List.mem_cons_self _ _, ?_⟩
      rw [h]
      split_ifs <;> simp
    · rcases ih (ti + 1) tr' h with ⟨tr0, h0, he⟩
      exact ⟨tr0, List.mem_cons_of_mem _ h0, he⟩

theorem matchedPairs_nil (t : IOUTracker) (dets : List Detection)
    (h : t.tracks = []) : matchedPairs t dets = [] := by
  have hc : candidateTriples t dets = [] := by
    unfold candidateTriples
    rw [h]
    simp
  unfold matchedPairs
  rw [hc]
  rfl

theorem trackerUpdate_out_eq (t : IOUTracker) (dets : List Detection) :
    (trackerUpdate t dets).2
      = (assignPass (matchedPairs t dets) t.tracks dets 0 t.next_id).1 := by
  unfold trackerUpdate
  split_ifs with h
  · rw [matchedPairs_nil t dets (List.isEmpty_iff.mp h)]
  · rfl

theorem trackerUpdate_nextid_eq (t : IOUTracker) (dets : List Detection) :
    (trackerUpdate t dets).1.next_id
      = (assignPass (matchedPairs t dets) t.tracks dets 0 t.next_id).2.2 := by
  unfold trackerUpdate
  split_ifs with h
  · rw [matchedPairs_nil t dets (List.isEmpty_iff.mp h)]
  · rfl

theorem trackerUpdate_config (t : IOUTracker) (dets : List Detection) :
    (trackerUpdate t dets).1.iou_threshold = t.iou_threshold
      ∧ (trackerUpdate t dets).1.max_missing_frames = t.max_missing_frames := by
  unfold trackerUpdate
  split_ifs <;> exact ⟨rfl, rfl⟩

/-- Well-formedness of the tracker state: every live id is below the
counter and live ids are pairwise distinct. -/
def WfTracker (t : IOUTracker) : Prop :=
  (∀ tr ∈ t.tracks, tr.track_id < t.next_id)
    ∧ (t.tracks.map Track.track_id).Nodup

theorem trackerUpdate_nextid_mono (t : IOUTracker) (dets : List Detection) :
    t.next_id ≤ (trackerUpdate t dets).1.next_id := by
  rw [trackerUpdate_nextid_eq]
  exact assignPass_nid_le _ _ dets 0 t.next_id

theorem trackerUpdate_tracks_mem (t : IOUTracker) (dets : List Detection) :
    ∀ tr ∈ (trackerUpdate t dets).1.tracks,
      (∃ tr0 ∈ t.tracks, tr.track_id = tr0.track_id)
        ∨ (t.next_id ≤ tr.track_id
            ∧ tr.track_id < (trackerUpdate t dets).1.next_id) := by
  intro tr htr
  rw [trackerUpdate_nextid_eq]
  unfold trackerUpdate at htr
  split_ifs at htr with h
  · have htracks := List.isEmpty_iff.mp h
    simp only at htr
    rw [htracks, List.nil_append] at htr
    have h5 := assignPass_newTracks_mem [] [] dets 0 t.next_id tr htr
    rw [matchedPairs_nil t dets htracks, htracks]
    exact Or.inr ⟨h5.1, h5.2.1⟩
  · simp only at htr
    have htr2 := List.mem_of_mem_filter htr
    rcases bumpMissing_mem _ _ 0 tr htr2 with ⟨tr0, htr0, hid, _⟩
    rcases List.mem_append.mp htr0 with h1 | h1
    · rcases refreshTracks_mem _ dets _ 0 tr0 h1 with ⟨tr1, htr1, hid1⟩
      exact Or.inl ⟨tr1, htr1, hid.trans hid1⟩
    · have h5 := assignPass_newTracks_mem (matchedPairs t dets) t.tracks dets 0
        t.next_id tr0 h1
      exact Or.inr ⟨le_of_le_of_eq h5.1 hid.symm, lt_of_eq_of_lt hid h5.2.1⟩

theorem trackerUpdate_missing_le (t : IOUTracker) (dets : List Detection) :
    ∀ tr ∈ (trackerUpdate t dets).1.tracks,
      tr.missing_frames ≤ t.max_missing_frames := by
  intro tr htr
  unfold trackerUpdate at htr
  split_ifs at htr with h
  · simp only at htr
    rw [List.isEmpty_iff.mp h, List.nil_append] at htr
    have h5 := assignPass_newTracks_mem [] [] dets 0 t.next_id tr htr
    rw [h5.2.2.1]
    exact Nat.zero_le _
  · simp only at htr
    have := List.of_mem_filter htr
    simpa using this

theorem trackerUpdate_wf (t : IOUTracker) (dets : List Detection)
    (hwf : WfTracker t) : WfTracker (trackerUpdate t dets).1 := by
  constructor
  · intro tr htr
    rcases trackerUpdate_tracks_mem t dets tr htr with ⟨tr0, htr0, hid⟩ | ⟨_, hlt⟩
    · calc tr.track_id = tr0.track_id := hid
        _ < t.next_id := hwf.1 tr0 htr0
        _ ≤ (trackerUpdate t dets).1.next_id := trackerUpdate_nextid_mono t dets
    · exact hlt
  · unfold trackerUpdate
    split_ifs with h
    · simp only
      rw [List.isEmpty_iff.mp h, List.nil_append]
      exact List.Pairwise.imp (fun hab => ne_of_lt hab)
        (assignPass_newTracks_sorted [] [] dets 0 t.next_id)
    · simp only
      have hsub : ((List.filter
            (fun tr => tr.missing_frames ≤ t.max_missing_frames)
            (bumpMissing ((matchedPairs t dets).map Prod.fst)
              (refreshTracks (matchedPairs t dets) dets t.tracks 0
                ++ (assignPass (matchedPairs t dets) t.tracks dets 0 t.next_id).2.1)
              0)).map Track.track_id).Sublist
          ((bumpMissing ((matchedPairs t dets).map Prod.fst)
              (refreshTracks (matchedPairs t dets) dets t.tracks 0
                ++ (assignPass (matchedPairs t dets) t.tracks dets 0 t.next_id).2.1)
              0).map Track.track_id) :=
        List.Sublist.map _ (List.filter_sublist _)
      refine List.Nodup.sublist hsub ?_
      rw [bumpMissing_map_id, List.map_append, refreshTracks_map_id]
      rw [List.nodup_append]
      refine ⟨hwf.2, ?_, ?_⟩
      · exact List.Pairwise.imp (fun hab => ne_of_lt hab)
          (assignPass_newTracks_sorted (matchedPairs t dets) t.tracks dets 0 t.next_id)
      · intro a ha hb
        rcases List.mem_map.mp ha with ⟨tr0, htr0, hid0⟩
        rcases List.mem_map.mp hb with ⟨tr1, htr1, hid1⟩
        have hlt := hwf.1 tr0 htr0
        have hge := (assignPass_newTracks_mem (matchedPairs t dets) t.tracks dets 0
          t.next_id tr1 htr1).1
        omega

/-- C10: every call to update returns detections that all carry a
track id; the id counter starts at 1 (at construction and after reset)
and never decreases across updates; well-formedness (all live ids below
the counter, pairwise distinct) is preserved; and every id handed to a
detection is either the id of a track that was already live or a fresh
id at or above the old counter value and below the new one — so an id
freed by a dropped track is never handed to a different object. -/
theorem claim_C10_track_id_invariants :
    (∀ (thr : ℚ) (mm : Nat), (trackerInit thr mm).next_id = 1
        ∧ (trackerInit thr mm).tracks = [] ∧ WfTracker (trackerInit thr mm))
    ∧ (∀ t : IOUTracker, (trackerReset t).next_id = 1
        ∧ (trackerReset t).tracks = [])
    ∧ (∀ (t : IOUTracker) (dets : List Detection),
        t.next_id ≤ (trackerUpdate t dets).1.next_id)
    ∧ (∀ (t : IOUTracker) (dets : List Detection),
        ∀ d ∈ (trackerUpdate t dets).2, d.track_id.isSome)
    ∧ (∀ (t : IOUTracker) (dets : List Detection),
        WfTracker t → WfTracker (trackerUpdate t dets).1)
    ∧ (∀ (t : IOUTracker) (dets : List Detection), WfTracker t →
        ∀ d ∈ (trackerUpdate t dets).2, ∃ v : Int, d.track_id = some v
          ∧ v < (trackerUpdate t dets).1.next_id
          ∧ ((∃ tr ∈ t.tracks, tr.track_id = v) ∨ t.next_id ≤ v)) := by
  refine ⟨fun thr mm => ⟨rfl, rfl, fun tr htr => by simp [trackerInit] at htr,
      by simp [trackerInit]⟩,
    fun t => ⟨rfl, rfl⟩,
    trackerUpdate_nextid_mono,
    ?_, trackerUpdate_wf, ?_⟩
  · intro t dets d hd
    rw [trackerUpdate_out_eq] at hd
    exact assignPass_all_some _ _ dets 0 t.next_id d hd
  · intro t dets hwf d hd
    rw [trackerUpdate_out_eq] at hd
    rw [trackerUpdate_nextid_eq]
    have hb : ∀ p ∈ matchedPairs t dets, trackIdAt t.tracks p.1 < t.next_id := by
      intro p hp
      have hlt := (matchedPairs_mem_elim t dets p hp).1
      unfold trackIdAt
      rw [List.getD_eq_getElem _ _ hlt]
      exact hwf.1 _ (List.getElem_mem hlt)
    rcases assignPass_id_bound (matchedPairs t dets) t.tracks dets 0 t.next_id
      hb d hd with ⟨v, hv1, hv2, hv3⟩
    refine ⟨v, hv1, hv2, ?_⟩
    rcases hv3 with ⟨q, hq1, _, hq3⟩ | hv3
    · have hlt := (matchedPairs_mem_elim t dets q hq1).1
      refine Or.inl ⟨t.tracks.getD q.1 dummyTrack, ?_, hq3.symm⟩
      rw [List.getD_eq_getElem _ _ hlt]
      exact List.getElem_mem hlt
    · exact Or.inr hv3

/-- Concrete instance of C10: one update on a fresh tracker keeps it
well-formed. -/
theorem claim_C10_witness :
    WfTracker (trackerUpdate (trackerInit (3/10) 5)
      [{ bbox := halfBox, frame_id := 0, timestamp := 0, track_id := none }]).1 :=
  claim_C10_track_id_invariants.2.2.2.2.1 (trackerInit (3/10) 5)
    [{ bbox := halfBox, frame_id := 0, timestamp := 0, track_id := none }]
    ((claim_C10_track_id_invariants.1 (3/10) 5).2.2)

theorem refreshTracks_getD_unmatched (m : List (Nat × Nat)) (dets : List Detection) :
    ∀ (l : List Track) (ti : Nat) (k : Nat),
      k < l.length → m.find? (fun q => q.1 = ti + k) = none →
      (refreshTracks m dets l ti).getD k dummyTrack = l.getD k dummyTrack := by
  intro l
  induction l with
  | nil => intro ti k hk; simp at hk
  | cons tr rest ih =>
    intro ti k hk hf
    cases k with
    | zero =>
      rw [Nat.add_zero] at hf
      simp [refreshTracks, hf]
    | succ k' =>
      have hf' : m.find? (fun q => q.1 = (ti + 1) + k') = none := by
        have : (ti + 1) + k' = ti + (k' + 1) := by omega
        rw [this]; exact hf
      have hk' : k' < rest.length := by simpa using hk
      simp only [refreshTracks, List.getD_cons_succ]
      exact ih (ti + 1) k' hk' hf'

theorem bumpMissing_getD_bumped (mt : List Nat) :
    ∀ (l : List Track) (ti : Nat) (k : Nat), k < l.length → (ti + k) ∉ mt →
      (bumpMissing mt l ti).getD k dummyTrack
        = { l.getD k dummyTrack with
            missing_frames := (l.getD k dummyTrack).missing_frames + 1 } := by
  intro l
  induction l with
  | nil => intro ti k hk; simp at hk
  | cons tr rest ih =>
    intro ti k hk hmem
    cases k with
    | zero =>
      rw [Nat.add_zero] at hmem
      simp [bumpMissing, hmem]
    | succ k' =>
      have hmem' : (ti + 1) + k' ∉ mt := by
        have : (ti + 1) + k' = ti + (k' + 1) := by omega
        rw [this]; exact hmem
      have hk' : k' < rest.length := by simpa using hk
      simp only [bumpMissing, List.getD_cons_succ]
      exact ih (ti + 1) k' hk' hmem'

/-- The per-update ids that were matched to an existing track. -/
def matchedIds (t : IOUTracker) (dets : List Detection) : List Int :=
  (matchedPairs t dets).map (fun p => trackIdAt t.tracks p.1)

/-- Iterated updates. -/
def runTracker (t : IOUTracker) (dss : List (List Detection)) : IOUTracker :=
  dss.foldl (fun s ds => (trackerUpdate s ds).1) t

/-- One unmatched update step: a surviving track with an unmatched id
was already live and its missing_frames grew by exactly one. -/
theorem trackerUpdate_unmatched_step (t : IOUTracker) (dets : List Detection)
    (j : Int) (hwf : WfTracker t) (hj : j < t.next_id)
    (hunm : j ∉ matchedIds t dets) :
    ∀ tr' ∈ (trackerUpdate t dets).1.tracks, tr'.track_id = j →
      ∃ tr ∈ t.tracks, tr.track_id = j
        ∧ tr'.missing_frames = tr.missing_frames + 1 := by
  intro tr' htr' hid
  unfold trackerUpdate at htr'
  split_ifs at htr' with h
  · simp only at htr'
    rw [List.isEmpty_iff.mp h, List.nil_append] at htr'
    have h5 := assignPass_newTracks_mem [] [] dets 0 t.next_id tr' htr'
    omega
  · simp only at htr'
    have htr2 := List.mem_of_mem_filter htr'
    rcases List.mem_iff_getElem.mp htr2 with ⟨k, hk, hget⟩
    have hklen : k < (refreshTracks (matchedPairs t dets) dets t.tracks 0
        ++ (assignPass (matchedPairs t dets) t.tracks dets 0 t.next_id).2.1).length := by
      rw [bumpMissing_length] at hk
      exact hk
    have hgetD : (bumpMissing ((matchedPairs t dets).map Prod.fst)
        (refreshTracks (matchedPairs t dets) dets t.tracks 0
          ++ (assignPass (matchedPairs t dets) t.tracks dets 0 t.next_id).2.1)
        0).getD k dummyTrack = tr' := by
      rw [List.getD_eq_getElem _ _ hk, hget]
    by_cases hkold : k < t.tracks.length
    · have hextk : (refreshTracks (matchedPairs t dets) dets t.tracks 0
          ++ (assignPass (matchedPairs t dets) t.tracks dets 0 t.next_id).2.1).getD
            k dummyTrack
          = (refreshTracks (matchedPairs t dets) dets t.tracks 0).getD k dummyTrack := by
        have hkr : k < (refreshTracks (matchedPairs t dets) dets t.tracks 0).length := by
          rw [refreshTracks_length]
          exact hkold
        rw [List.getD_eq_getElem _ _ hklen, List.getD_eq_getElem _ _ hkr,
          List.getElem_append_left hkr]
      by_cases hkm : k ∈ (matchedPairs t dets).map Prod.fst
      · exfalso
        rcases List.mem_map.mp hkm with ⟨p, hp, hpk⟩
        have hfindsome : ((matchedPairs t dets).find? (fun q => q.1 = 0 + k)).isSome := by
          rw [List.find?_isSome]
          exact ⟨p, hp, by simpa using hpk⟩
        rcases Option.isSome_iff_exists.mp hfindsome with ⟨p', hp'⟩
        have hp'm : p' ∈ matchedPairs t dets := List.mem_of_find?_eq_some hp'
        have hp'k : p'.1 = k := by simpa using List.find?_some hp'
        have hrt := refreshTracks_getD_matched (matchedPairs t dets) dets t.tracks
          0 k p' hkold hp'
        have hbk := bumpMissing_getD_kept ((matchedPairs t dets).map Prod.fst)
          (refreshTracks (matchedPairs t dets) dets t.tracks 0
            ++ (assignPass (matchedPairs t dets) t.tracks dets 0 t.next_id).2.1)
          0 k hklen (by simpa using hkm)
        apply hunm
        unfold matchedIds
        refine List.mem_map.mpr ⟨p', hp'm, ?_⟩
        unfold trackIdAt
        rw [hp'k]
        have hidchain : tr'.track_id = (t.tracks.getD k dummyTrack).track_id := by
          rw [← hgetD, hbk, hextk, hrt.1]
        rw [← hidchain, hid]
      · have hfindnone : (matchedPairs t dets).find? (fun q => q.1 = 0 + k) = none := by
          rw [List.find?_eq_none]
          intro q hq
          simp only [decide_eq_true_eq, Nat.zero_add]
          intro hqk
          exact hkm (List.mem_map.mpr ⟨q, hq, hqk⟩)
        have hrt := refreshTracks_getD_unmatched (matchedPairs t dets) dets t.tracks
          0 k hkold hfindnone
        have hbk := bumpMissing_getD_bumped ((matchedPairs t dets).map Prod.fst)
          (refreshTracks (matchedPairs t dets) dets t.tracks 0
            ++ (assignPass (matchedPairs t dets) t.tracks dets 0 t.next_id).2.1)
          0 k hklen (by simpa using hkm)
        have htrform : tr' = { t.tracks.getD k dummyTrack with
            missing_frames := (t.tracks.getD k dummyTrack).missing_frames + 1 } := by
          rw [← hgetD, hbk, hextk, hrt]
        refine ⟨t.tracks.getD k dummyTrack, ?_, ?_, ?_⟩
        · rw [List.getD_eq_getElem _ _ hkold]
          exact List.getElem_mem hkold
        · rw [← hid, htrform]
        · rw [htrform]
    · exfalso
      have hknew : k - t.tracks.length
          < (assignPass (matchedPairs t dets) t.tracks dets 0 t.next_id).2.1.length := by
        rw [List.length_append, refreshTracks_length] at hklen
        omega
      have hkr : (refreshTracks (matchedPairs t dets) dets t.tracks 0).length ≤ k := by
        rw [refreshTracks_length]
        omega
      have hextk : (refreshTracks (matchedPairs t dets) dets t.tracks 0
          ++ (assignPass (matchedPairs t dets) t.tracks dets 0 t.next_id).2.1).getD
            k dummyTrack
          = (assignPass (matchedPairs t dets) t.tracks dets 0 t.next_id).2.1.getD
              (k - t.tracks.length) dummyTrack := by
        rw [List.getD_eq_getElem _ _ hklen, List.getD_eq_getElem _ _ hknew,
          List.getElem_append_right hkr]
        congr 1
        rw [refreshTracks_length]
      have hidpres : tr'.track_id
          = ((refreshTracks (matchedPairs t dets) dets t.tracks 0
              ++ (assignPass (matchedPairs t dets) t.tracks dets 0 t.next_id).2.1).getD
                k dummyTrack).track_id := by
        by_cases hkm : (0 + k) ∈ (matchedPairs t dets).map Prod.fst
        · rw [← hgetD, bumpMissing_getD_kept _ _ 0 k hklen hkm]
        · rw [← hgetD, bumpMissing_getD_bumped _ _ 0 k hklen hkm]
      have hnew : (assignPass (matchedPairs t dets) t.tracks dets 0 t.next_id).2.1.getD
          (k - t.tracks.length) dummyTrack
            ∈ (assignPass (matchedPairs t dets) t.tracks dets 0 t.next_id).2.1 := by
        rw [List.getD_eq_getElem _ _ hknew]
        exact List.getElem_mem hknew
      have h5 := assignPass_newTracks_mem (matchedPairs t dets) t.tracks dets 0
        t.next_id _ hnew
      rw [hextk] at hidpres
      omega

theorem runTracker_max_eq (dss : List (List Detection)) :
    ∀ t : IOUTracker, (runTracker t dss).max_missing_frames = t.max_missing_frames := by
  induction dss with
  | nil => intro t; rfl
  | cons ds rest ih =>
    intro t
    have h1 := (trackerUpdate_config t ds).2
    calc (runTracker t (ds :: rest)).max_missing_frames
        = (runTracker (trackerUpdate t ds).1 rest).max_missing_frames := rfl
      _ = (trackerUpdate t ds).1.max_missing_frames := ih _
      _ = t.max_missing_frames := h1

theorem runTracker_missing_le (dss : List (List Detection)) :
    ∀ t : IOUTracker, dss ≠ [] →
      ∀ tr ∈ (runTracker t dss).tracks, tr.missing_frames ≤ t.max_missing_frames := by
  induction dss with
  | nil => intro t h; exact absurd rfl h
  | cons ds rest ih =>
    intro t _ tr htr
    by_cases hrest : rest = []
    · subst hrest
      exact trackerUpdate_missing_le t ds tr htr
    · have := ih (trackerUpdate t ds).1 hrest tr htr
      rw [(trackerUpdate_config t ds).2] at this
      exact this

theorem runTracker_unmatched_missing (j : Int) :
    ∀ (dss : List (List Detection)) (t : IOUTracker), WfTracker t →
      j < t.next_id →
      (∀ k, k < dss.length →
        j ∉ matchedIds (runTracker t (dss.take k)) (dss.getD k [])) →
      ∀ tr ∈ (runTracker t dss).tracks, tr.track_id = j →
        ∃ tr0 ∈ t.tracks, tr0.track_id = j
          ∧ tr0.missing_frames + dss.length ≤ tr.missing_frames := by
  intro dss
  induction dss with
  | nil =>
    intro t _ _ _ tr htr hid
    exact ⟨tr, htr, hid, by simp⟩
  | cons ds rest ih =>
    intro t hwf hj hunm tr htr hid
    have hwf1 := trackerUpdate_wf t ds hwf
    have hj1 : j < (trackerUpdate t ds).1.next_id :=
      lt_of_lt_of_le hj (trackerUpdate_nextid_mono t ds)
    have hunm1 : ∀ k, k < rest.length →
        j ∉ matchedIds (runTracker (trackerUpdate t ds).1 (rest.take k))
          (rest.getD k []) := by
      intro k hk
      have := hunm (k + 1) (by simpa using Nat.succ_lt_succ hk)
      simpa [List.take_succ_cons, runTracker] using this
    have hfinal : (runTracker t (ds :: rest)).tracks
        = (runTracker (trackerUpdate t ds).1 rest).tracks := rfl
    rw [hfinal] at htr
    rcases ih (trackerUpdate t ds).1 hwf1 hj1 hunm1 tr htr hid with
      ⟨tr1, htr1, hid1, hge1⟩
    have hunm0 : j ∉ matchedIds t ds := by
      have := hunm 0 (by simp)
      simpa [runTracker] using this
    rcases trackerUpdate_unmatched_step t ds j hwf hj hunm0 tr1 htr1 hid1 with
      ⟨tr0, htr0, hid0, hstep⟩
    refine ⟨tr0, htr0, hid0, ?_⟩
    simp only [List.length_cons]
    omega

/-- C3, amended: the unique-pairing clause additionally requires that no
other detection clears the threshold against that track (without this the
greedy matcher may give the track to a higher-IoU competitor, see the
counterexample); then that detection inherits the track's id and the
track's missing_frames is reset to 0.  A detection below threshold
against every live track receives a fresh id no live track carries, and
the ids handed out in one update are pairwise distinct.  A track whose id
goes unmatched in max_missing_frames + 1 consecutive updates is absent
from all_tracks afterwards. -/
theorem claim_C3_tracker_identity :
    (∀ (t : IOUTracker) (dets : List Detection) (di ti : Nat),
        di < dets.length → ti < t.tracks.length →
        t.iou_threshold ≤ iouAt t dets di ti →
        (∀ ti' < t.tracks.length, ti' ≠ ti → iouAt t dets di ti' < t.iou_threshold) →
        (∀ di' < dets.length, di' ≠ di → iouAt t dets di' ti < t.iou_threshold) →
        (((trackerUpdate t dets).2.getD di dummyDet).track_id
            = some (t.tracks.getD ti dummyTrack).track_id)
          ∧ ∃ tr ∈ (trackerUpdate t dets).1.tracks,
              tr.track_id = (t.tracks.getD ti dummyTrack).track_id
                ∧ tr.missing_frames = 0)
    ∧ (∀ (t : IOUTracker) (dets : List Detection) (di : Nat), WfTracker t →
        di < dets.length →
        (∀ ti' < t.tracks.length, iouAt t dets di ti' < t.iou_threshold) →
        (∃ v : Int, ((trackerUpdate t dets).2.getD di dummyDet).track_id = some v
          ∧ t.next_id ≤ v ∧ ∀ tr ∈ t.tracks, tr.track_id ≠ v)
          ∧ ((trackerUpdate t dets).2.filterMap Detection.track_id).Nodup)
    ∧ (∀ (t : IOUTracker) (j : Int) (dss : List (List Detection)), WfTracker t →
        j < t.next_id → dss.length = t.max_missing_frames + 1 →
        (∀ k, k < dss.length →
          j ∉ matchedIds (runTracker t (dss.take k)) (dss.getD k [])) →
        ∀ tr ∈ allTracks (runTracker t dss), tr.track_id ≠ j) := by
  refine ⟨?_, ?_, ?_⟩
  · intro t dets di ti hdi hti h1 h2 h3
    have hmatch : (ti, di) ∈ matchedPairs t dets :=
      matchedPairs_unique_accept t dets di ti hdi hti h1 h2 h3
    have hfd : (matchedPairs t dets).find? (fun q => q.2 = 0 + di)
        = some (ti, di) := by
      have := find?_eq_of_map_nodup Prod.snd (matchedPairs t dets) (ti, di)
        (matchedPairs_nodup t dets).2 hmatch
      rw [Nat.zero_add]
      exact this
    have hft : (matchedPairs t dets).find? (fun q => q.1 = 0 + ti)
        = some (ti, di) := by
      have := find?_eq_of_map_nodup Prod.fst (matchedPairs t dets) (ti, di)
        (matchedPairs_nodup t dets).1 hmatch
      rw [Nat.zero_add]
      exact this
    constructor
    · rw [trackerUpdate_out_eq]
      exact assignPass_getD_matched (matchedPairs t dets) t.tracks dets 0
        t.next_id di (ti, di) hdi hfd
    · have hne : t.tracks.isEmpty = false := by
        cases htk : t.tracks with
        | nil => rw [htk] at hti; simp at hti
        | cons a l => rfl
      have hrt := refreshTracks_getD_matched (matchedPairs t dets) dets t.tracks
        0 ti (ti, di) hti hft
      have hkr : ti < (refreshTracks (matchedPairs t dets) dets t.tracks 0).length := by
        rw [refreshTracks_length]
        exact hti
      have hklen : ti < (refreshTracks (matchedPairs t dets) dets t.tracks 0
          ++ (assignPass (matchedPairs t dets) t.tracks dets 0 t.next_id).2.1).length := by
        rw [List.length_append]
        omega
      have hextk : (refreshTracks (matchedPairs t dets) dets t.tracks 0
          ++ (assignPass (matchedPairs t dets) t.tracks dets 0 t.next_id).2.1).getD
            ti dummyTrack
          = (refreshTracks (matchedPairs t dets) dets t.tracks 0).getD ti dummyTrack := by
        rw [List.getD_eq_getElem _ _ hklen, List.getD_eq_getElem _ _ hkr,
          List.getElem_append_left hkr]
      have hkm : (0 + ti) ∈ (matchedPairs t dets).map Prod.fst := by
        rw [Nat.zero_add]
        exact List.mem_map.mpr ⟨(ti, di), hmatch, rfl⟩
      have hbk := bumpMissing_getD_kept ((matchedPairs t dets).map Prod.fst)
        (refreshTracks (matchedPairs t dets) dets t.tracks 0
          ++ (assignPass (matchedPairs t dets) t.tracks dets 0 t.next_id).2.1)
        0 ti hklen hkm
      have hblen : ti < (bumpMissing ((matchedPairs t dets).map Prod.fst)
          (refreshTracks (matchedPairs t dets) dets t.tracks 0
            ++ (assignPass (matchedPairs t dets) t.tracks dets 0 t.next_id).2.1)
          0).length := by
        rw [bumpMissing_length]
        exact hklen
      have hmem : (bumpMissing ((matchedPairs t dets).map Prod.fst)
          (refreshTracks (matchedPairs t dets) dets t.tracks 0
            ++ (assignPass (matchedPairs t dets) t.tracks dets 0 t.next_id).2.1)
          0).getD ti dummyTrack
          ∈ bumpMissing ((matchedPairs t dets).map Prod.fst)
            (refreshTracks (matchedPairs t dets) dets t.tracks 0
              ++ (assignPass (matchedPairs t dets) t.tracks dets 0 t.next_id).2.1)
            0 := by
        rw [List.getD_eq_getElem _ _ hblen]
        exact List.getElem_mem hblen
      have hprops : ((bumpMissing ((matchedPairs t dets).map Prod.fst)
          (refreshTracks (matchedPairs t dets) dets t.tracks 0
            ++ (assignPass (matchedPairs t dets) t.tracks dets 0 t.next_id).2.1)
          0).getD ti dummyTrack).track_id
            = (t.tracks.getD ti dummyTrack).track_id
          ∧ ((bumpMissing ((matchedPairs t dets).map Prod.fst)
          (refreshTracks (matchedPairs t dets) dets t.tracks 0
            ++ (assignPass (matchedPairs t dets) t.tracks dets 0 t.next_id).2.1)
          0).getD ti dummyTrack).missing_frames = 0 := by
        rw [hbk, hextk]
        exact ⟨hrt.1, hrt.2⟩
      refine ⟨(bumpMissing ((matchedPairs t dets).map Prod.fst)
          (refreshTracks (matchedPairs t dets) dets t.tracks 0
            ++ (assignPass (matchedPairs t dets) t.tracks dets 0 t.next_id).2.1)
          0).getD ti dummyTrack, ?_, hprops.1, hprops.2⟩
      simp only [trackerUpdate, hne, Bool.false_eq_true, if_false]
      rw [List.mem_filter]
      exact ⟨hmem, by rw [hprops.2]; simp⟩
  · intro t dets di hwf hdi hlow
    have hfdnone : (matchedPairs t dets).find? (fun q => q.2 = 0 + di) = none := by
      rw [List.find?_eq_none]
      intro q hq
      simp only [decide_eq_true_eq, Nat.zero_add]
      intro hqd
      have hm := matchedPairs_mem_elim t dets q hq
      have hlt := hlow q.1 hm.1
      rw [hqd] at hm
      linarith [hm.2.2]
    have hb : ∀ p ∈ matchedPairs t dets, trackIdAt t.tracks p.1 < t.next_id := by
      intro p hp
      have hlt := (matchedPairs_mem_elim t dets p hp).1
      unfold trackIdAt
      rw [List.getD_eq_getElem _ _ hlt]
      exact hwf.1 _ (List.getElem_mem hlt)
    constructor
    · rcases assignPass_getD_unmatched (matchedPairs t dets) t.tracks dets 0
        t.next_id di hdi hfdnone with ⟨v, hv1, hv2, _⟩
      rw [trackerUpdate_out_eq]
      refine ⟨v, hv1, hv2, ?_⟩
      intro tr htr heq
      have := hwf.1 tr htr
      omega
    · rw [trackerUpdate_out_eq]
      refine assignPass_ids_nodup (matchedPairs t dets) t.tracks ?_ dets 0
        t.next_id hb
      intro p p' hp hp' hne2
      have h1 := (matchedPairs_mem_elim t dets p hp).1
      have h1' := (matchedPairs_mem_elim t dets p' hp').1
      have hfstne : p.1 ≠ p'.1 := by
        intro hfe
        exact hne2 (congrArg Prod.snd
          (List.inj_on_of_nodup_map (matchedPairs_nodup t dets).1 hp hp' hfe))
      unfold trackIdAt
      rw [List.getD_eq_getElem _ _ h1, List.getD_eq_getElem _ _ h1']
      intro hideq
      apply hfstne
      have hb1 : p.1 < (t.tracks.map Track.track_id).length := by simpa using h1
      have hb2 : p'.1 < (t.tracks.map Track.track_id).length := by simpa using h1'
      have hmapeq : (t.tracks.map Track.track_id)[p.1]
          = (t.tracks.map Track.track_id)[p'.1] := by
        rw [List.getElem_map, List.getElem_map]
        exact hideq
      exact (List.Nodup.getElem_inj_iff hwf.2).mp hmapeq
  · intro t j dss hwf hj hlen hunm tr htr hid
    have hdss : dss ≠ [] := by
      intro h
      rw [h] at hlen
      simp at hlen
    have hbound := runTracker_missing_le dss t hdss tr htr
    rcases runTracker_unmatched_missing j dss t hwf hj hunm tr htr hid with
      ⟨tr0, _, _, hge⟩
    omega

/-- The live track box of the C3 counterexample. -/
def trackBoxC : BBox :=
  { x1 := 0, y1 := 0, x2 := 10, y2 := 10, confidence := 9/10,
    class_name := "car", class_id := 0 }

/-- A competitor detection with IoU 9/10 against the track. -/
def strongBoxC : BBox :=
  { x1 := 0, y1 := 0, x2 := 10, y2 := 9, confidence := 9/10,
    class_name := "car", class_id := 0 }

/-- A detection with IoU 1/3 against the track (above the 3/10
threshold, and the track is the only live track). -/
def weakBoxC : BBox :=
  { x1 := 0, y1 := 5, x2 := 10, y2 := 15, confidence := 9/10,
    class_name := "car", class_id := 0 }

/-- The single live track of the C3 counterexample. -/
def trackC : Track :=
  { track_id := 1, bbox := trackBoxC, class_name := "car",
    age := 0, missing_frames := 0, total_visible := 1 }

/-- The one-track tracker of the C3 counterexample. -/
def trackerC : IOUTracker :=
  { iou_threshold := 3/10, max_missing_frames := 5,
    tracks := [trackC], next_id := 2 }

/-- The strong competitor detection. -/
def detSC : Detection := { bbox := strongBoxC, frame_id := 0, timestamp := 0, track_id := none }

/-- The weak detection of the counterexample. -/
def detWC : Detection := { bbox := weakBoxC, frame_id := 0, timestamp := 0, track_id := none }

theorem iou_strong_track : BBox.iou strongBoxC trackBoxC = 9/10 := by
  norm_num [BBox.iou, BBox.area, BBox.width, BBox.height, strongBoxC, trackBoxC]

theorem iou_weak_track : BBox.iou weakBoxC trackBoxC = 1/3 := by
  norm_num [BBox.iou, BBox.area, BBox.width, BBox.height, weakBoxC, trackBoxC]

theorem counterexample_triples :
    candidateTriples trackerC [detSC, detWC] = [(0, 0, 9/10), (0, 1, 1/3)] := by
  simp only [candidateTriples, trackerC, List.enum]
  norm_num [List.enumFrom, List.flatMap_cons, List.flatMap_nil,
    List.filterMap_cons, List.filterMap_nil, detSC, detWC, trackC,
    iou_strong_track, iou_weak_track]

theorem counterexample_matched :
    matchedPairs trackerC [detSC, detWC] = [(0, 0)] := by
  unfold matchedPairs
  rw [counterexample_triples]
  have hsorted : ([(0, 0, 9/10), (0, 1, 1/3)] :
      List (Nat × Nat × ℚ)).insertionSort (fun a b => b.2.2 ≤ a.2.2)
      = [(0, 0, 9/10), (0, 1, 1/3)] := by
    norm_num [List.insertionSort, List.orderedInsert]
  rw [hsorted]
  simp [greedyAssign]

/-- Counterexample to C3 as stated: the weak detection's IoU with the
single live track is at or above the threshold — it is a detection whose
IoU with exactly one live track clears iou_threshold — yet it does not
receive that track's id 1: the greedy matcher gives the track to the
stronger competitor and the weak detection gets the fresh id 2. -/
theorem claim_C3_counterexample :
    trackerC.tracks.length = 1
    ∧ trackerC.iou_threshold ≤ iouAt trackerC [detSC, detWC] 1 0
    ∧ ((trackerUpdate trackerC [detSC, detWC]).2.getD 1 dummyDet).track_id = some 2
    ∧ ((trackerUpdate trackerC [detSC, detWC]).2.getD 1 dummyDet).track_id
        ≠ some ((trackerC.tracks.getD 0 dummyTrack).track_id) := by
  have hiou : iouAt trackerC [detSC, detWC] 1 0 = 1/3 := by
    simp only [iouAt, getDet, trackerC, List.getD]
    norm_num [detWC, trackC, iou_weak_track]
  have hout : ((trackerUpdate trackerC [detSC, detWC]).2.getD 1 dummyDet).track_id
      = some 2 := by
    rw [trackerUpdate_out_eq, counterexample_matched]
    simp only [assignPass, List.find?]
    norm_num [trackIdAt, trackerC, trackC]
  refine ⟨rfl, ?_, hout, ?_⟩
  · rw [hiou]
    norm_num [trackerC]
  · rw [hout]
    simp [trackerC, trackC]

/-- Concrete instance of C3 (amended): a single detection overlapping
the single live track uniquely inherits id 1. -/
theorem claim_C3_witness :
    ((trackerUpdate trackerC [detSC]).2.getD 0 dummyDet).track_id
      = some ((trackerC.tracks.getD 0 dummyTrack).track_id) :=
  (claim_C3_tracker_identity.1 trackerC [detSC] 0 0
    (by norm_num) (by norm_num [trackerC])
    (by simp only [iouAt, getDet, trackerC, List.getD]
        norm_num [detSC, trackC, iou_strong_track])
    (by intro ti' h1 h2
        simp only [trackerC] at h1
        norm_num at h1
        exact absurd h1 h2)
    (by intro di' h1 h2
        norm_num at h1
        exact absurd h1 h2)).1

/-- The single pending job of the C4 demonstration. -/
def leaseDemoJob : CloudJob :=
  ⟨1, "v-1", "pending", 0, none, none, none, 0, 0⟩

/-- A queue holding exactly that job. -/
def leaseDemoDB : QueueDB := ⟨[leaseDemoJob], [], 2, 1⟩

/-- C4: the code's lease, get_pending_cloud, is a pure read.  It never
changes the table (in particular it never marks a row 'processing'),
every job it hands out still has status 'pending', and the same
unresolved job is handed out again by an immediately following lease
call — the claimed atomic read-and-mark-processing step does not exist
in the code. -/
theorem claim_C4_lease_is_pure_read :
    (∀ (db : QueueDB) (limit : Nat), applyOp db (.pendingCloud limit) = db)
    ∧ (∀ (db : QueueDB) (limit : Nat),
        (getPendingCloud db limit).all (fun j => j.status == "pending") = true)
    ∧ getPendingCloud leaseDemoDB 5 = [leaseDemoJob]
    ∧ getPendingCloud (applyOp leaseDemoDB (.pendingCloud 5)) 5 = [leaseDemoJob] := by
  refine ⟨fun db limit => rfl, ?_, by decide, by decide⟩
  intro db limit
  rw [List.all_eq_true]
  intro j hj
  have hmem : j ∈ (db.cloud.filter (fun j => j.status = "pending")).insertionSort
      (fun a b => a.created_at ≤ b.created_at) := List.mem_of_mem_take hj
  have hmem2 : j ∈ db.cloud.filter (fun j => j.status = "pending") :=
    (List.perm_insertionSort _ _).mem_iff.mp hmem
  have := List.of_mem_filter hmem2
  simpa using this

end TrafficEye
